import Mathlib

/-! # lisibleflac: the bit reader and the metadata decoder

A shallow embedding of `lisibleflac/src/lisibleflac.c`.

* The `FILE *` is a list of bytes with a file position indicator.
* Machine integers are naturals; a store into a `uintN_t` reduces modulo `2^N`.
* A C local declared without initialiser holds an arbitrary value of its type; such values
  are explicit arguments (`StreamInfoLocals`, `Indeterminate`), so every statement proved for
  all of them holds whatever the memory happened to contain.
* `LFLAC_ASSERT` aborts the process. Every call site passes a non-null pointer and a bit count
  of at most 32, so the assertions never fire and are not part of the model; statements about
  `FlacDecoder_next_bits` carry `bit_count ≤ 32` and `bit_index ≤ 7` where they need them.
-/

namespace LisibleFlac

/-! ## Data model -/

/-- The `FlacDecoder` struct, with the stream it points to spelled out: the bytes of the file
and the file position indicator of the `FILE`. -/
structure FlacDecoder where
  stream : List Nat
  pos : Nat
  bit_index : Nat
  current_byte : Nat
deriving DecidableEq, Repr

/-- The `MetadataBlockHeader` struct. -/
structure MetadataBlockHeader where
  length : Nat
  block_type : Nat
  last : Bool
deriving DecidableEq, Repr

/-- The `StreamInfo` struct; `md5_checksum` is the 16-byte array as a list. -/
structure StreamInfo where
  md5_checksum : List Nat
  sample_count : Nat
  sample_rate : Nat
  minimum_frame_size : Nat
  maximum_frame_size : Nat
  minimum_blocksize : Nat
  maximum_blocksize : Nat
  channel_count : Nat
  bits_per_sample : Nat
deriving DecidableEq, Repr

/-- The values the uninitialised `uint32_t` locals of
`FlacDecoder_parse_STREAMINFO_metadata_block` hold before the read that is meant to fill them
(`v` is declared afresh in each of the 16 iterations of the checksum loop). -/
structure StreamInfoLocals where
  minimum_blocksize : Nat
  maximum_blocksize : Nat
  minimum_frame_size : Nat
  maximum_frame_size : Nat
  sample_rate : Nat
  channel_count_bps : Nat
  sample_count_hi : Nat
  sample_count_lo : Nat
  v : Nat → Nat

/-- The indeterminate memory `lflac_decode` starts from: the `current_byte` of its uninitialised
`FlacDecoder`, and the locals of the STREAMINFO decoder at each iteration of the block loop. -/
structure Indeterminate where
  current_byte : Nat
  locals : Nat → StreamInfoLocals

/-- The `return false` statements of `lflac_decode`, named after the diagnostic next to them. -/
inductive ReturnSite where
  | invalid_signature
  | header_read_failed
  | streaminfo_not_first
  | unsupported_block_type
  | block_not_parsed
deriving DecidableEq, Repr

/-- The locals of `lflac_decode` that live across iterations of its `while` loop.
`stream_info` is `none` until the first store into it. -/
structure DecodeState where
  decoder : FlacDecoder
  stream_info : Option StreamInfo
  last_metadata_block : Bool
  block_count : Nat
deriving DecidableEq, Repr

/-- What a call of `lflac_decode` returns, with the state it returns in. -/
inductive DecodeResult where
  | returned_true (st : DecodeState)
  | returned_false (site : ReturnSite) (decoder : FlacDecoder)
deriving DecidableEq, Repr

/-- One pass through the body of the `while` loop of `lflac_decode`. -/
inductive IterationResult where
  | returned (site : ReturnSite) (decoder : FlacDecoder)
  | next (st : DecodeState)
deriving DecidableEq, Repr

/-! ## The stream -/

/-- `fread(&decoder->current_byte, 1, 1, decoder->stream)`: the number of items read. At end
of file nothing is stored and the position does not move. -/
def fread_current_byte (decoder : FlacDecoder) : FlacDecoder × Nat :=
  match decoder.stream[decoder.pos]? with
  | some b => ({ decoder with current_byte := b % 256, pos := decoder.pos + 1 }, 1)
  | none => (decoder, 0)

/-- `fseek(decoder->stream, offset, SEEK_CUR)`: fails (nonzero) when the resulting position
would be negative; a position past the end of the file is accepted. -/
def fseek_cur (decoder : FlacDecoder) (offset : Int) : FlacDecoder × Int :=
  if (decoder.pos : Int) + offset < 0 then (decoder, -1)
  else ({ decoder with pos := ((decoder.pos : Int) + offset).toNat }, 0)

/-! ## Bit reader -/

/-- `FlacDecoder_init`: `decoder` is the caller's struct before the call. -/
def FlacDecoder_init (decoder : FlacDecoder) (stream : List Nat) : FlacDecoder × Bool :=
  let decoder := { decoder with stream := stream, pos := 0 }
  let decoder := { decoder with bit_index := 0 }
  match fread_current_byte decoder with
  | (decoder, n) => (decoder, n == 1)

/-- `FlacDecoder_skip`. The offset `byte_count - 1` is computed in `size_t` and converted to
`long`, so a `byte_count` of 0 seeks one byte back. -/
def FlacDecoder_skip (decoder : FlacDecoder) (byte_count : Nat) : FlacDecoder × Bool :=
  match fseek_cur decoder ((byte_count : Int) - 1) with
  | (decoder, r) =>
    if r ≠ 0 then (decoder, false)
    else
      match fread_current_byte decoder with
      | (decoder, n) => (decoder, n != 0)

/-- The loop `while (bit_count >= 8)` of `FlacDecoder_next_bits`, on the state
`(decoder, result, bit_count)`; `none` is the `return false` inside it. -/
def next_bits_whole_bytes : FlacDecoder → Nat → Nat → FlacDecoder × Option (Nat × Nat)
  | decoder, result, bit_count + 8 =>
    let result := ((result <<< 8) % 2 ^ 32) ||| decoder.current_byte
    match fread_current_byte decoder with
    | (decoder, n) =>
      if n ≠ 1 then (decoder, none)
      else next_bits_whole_bytes { decoder with bit_index := 0 } result bit_count
  | decoder, result, bit_count => (decoder, some (result, bit_count))

/-- The part of `FlacDecoder_next_bits` from the `while` loop to the end. -/
def next_bits_tail (decoder : FlacDecoder) (result bit_count : Nat) : FlacDecoder × Option Nat :=
  match next_bits_whole_bytes decoder result bit_count with
  | (decoder, none) => (decoder, none)
  | (decoder, some (result, bit_count)) =>
    if bit_count > 0 then
      let left_in_byte := 8 - decoder.bit_index
      let result := ((result <<< bit_count) % 2 ^ 32) |||
        ((decoder.current_byte &&& ((1 <<< left_in_byte) - 1)) >>> (left_in_byte - bit_count))
      ({ decoder with bit_index := (decoder.bit_index + bit_count) % 256 }, some result)
    else (decoder, some result)

/-- `FlacDecoder_next_bits`: the decoder after the call, and `some bits` when it returns true
(`*bits` is stored only then), `none` when it returns false. -/
def FlacDecoder_next_bits (decoder : FlacDecoder) (bit_count : Nat) : FlacDecoder × Option Nat :=
  if decoder.bit_index > 0 then
    let left_in_byte := 8 - decoder.bit_index
    let count := min left_in_byte bit_count
    let result := (decoder.current_byte &&& ((1 <<< left_in_byte) - 1)) >>> (left_in_byte - count)
    match fread_current_byte decoder with
    | (decoder, n) =>
      if n ≠ 1 then (decoder, none)
      else next_bits_tail { decoder with bit_index := 0 } result (bit_count - count)
  else next_bits_tail decoder 0 bit_count

/-- A call `FlacDecoder_next_bits(decoder, bit_count, &x)` whose status is ignored: `x` keeps
its previous value `old` when the call returns false. -/
def next_bits_into (decoder : FlacDecoder) (bit_count old : Nat) : FlacDecoder × Nat :=
  match FlacDecoder_next_bits decoder bit_count with
  | (decoder, some bits) => (decoder, bits)
  | (decoder, none) => (decoder, old)

/-! ## Metadata decoder -/

/-- `FlacDecoder_validate_signature`; the characters are `'C' = 67`, `'a' = 97`, `'L' = 76`,
`'f' = 102`. -/
def FlacDecoder_validate_signature (decoder : FlacDecoder) : FlacDecoder × Bool :=
  match FlacDecoder_next_bits decoder 32 with
  | (decoder, none) => (decoder, false)
  | (decoder, some bits) =>
    (decoder, (bits &&& 0xFF) == 67 && ((bits >>> 8) &&& 0xFF) == 97 &&
      ((bits >>> 16) &&& 0xFF) == 76 && ((bits >>> 24) &&& 0xFF) == 102)

/-- `FlacDecoder_parse_metadata_block_header`: `some header` when it returns true. -/
def FlacDecoder_parse_metadata_block_header (decoder : FlacDecoder) :
    FlacDecoder × Option MetadataBlockHeader :=
  match FlacDecoder_next_bits decoder 8 with
  | (decoder, none) => (decoder, none)
  | (decoder, some block_info) =>
    let last := (block_info &&& 0x80) != 0
    let block_type := (block_info &&& 0x7f) % 256
    match FlacDecoder_next_bits decoder 24 with
    | (decoder, none) => (decoder, none)
    | (decoder, some length) =>
      (decoder, some { length := length &&& ((1 <<< 24) - 1), block_type := block_type, last := last })

/-- The loop `for (i = 0; i < MD5_CHECKSUM_SIZE; i++)` that fills `md5`, with `n` iterations
left; `md5` holds the elements stored so far, `md5[0]` to `md5[i - 1]`. -/
def read_md5 (v : Nat → Nat) : Nat → Nat → FlacDecoder → List Nat → FlacDecoder × List Nat
  | 0, _, decoder, md5 => (decoder, md5)
  | n + 1, i, decoder, md5 =>
    match next_bits_into decoder 8 (v i % 2 ^ 32) with
    | (decoder, bits) => read_md5 v n (i + 1) decoder (md5 ++ [(bits &&& 0xFF) % 256])

/-- `FlacDecoder_parse_STREAMINFO_metadata_block`: `some stream_info` when it returns true (the
output is stored only then). The status of every read is ignored, as in the source. -/
def FlacDecoder_parse_STREAMINFO_metadata_block (u : StreamInfoLocals) (decoder : FlacDecoder) :
    FlacDecoder × Option StreamInfo :=
  match next_bits_into decoder 16 (u.minimum_blocksize % 2 ^ 32) with
  | (decoder, minimum_blocksize) =>
  match next_bits_into decoder 16 (u.maximum_blocksize % 2 ^ 32) with
  | (decoder, maximum_blocksize) =>
  match next_bits_into decoder 24 (u.minimum_frame_size % 2 ^ 32) with
  | (decoder, minimum_frame_size) =>
  match next_bits_into decoder 24 (u.maximum_frame_size % 2 ^ 32) with
  | (decoder, maximum_frame_size) =>
  match next_bits_into decoder 20 (u.sample_rate % 2 ^ 32) with
  | (decoder, sample_rate) =>
  if sample_rate = 0 then (decoder, none)
  else
  match next_bits_into decoder 8 (u.channel_count_bps % 2 ^ 32) with
  | (decoder, channel_count_bps) =>
  let channel_count := ((channel_count_bps >>> 5) + 1) % 256
  let bits_per_sample := ((channel_count_bps &&& 0x1F) + 1) % 256
  match next_bits_into decoder 32 (u.sample_count_hi % 2 ^ 32) with
  | (decoder, sample_count_hi) =>
  match next_bits_into decoder 4 (u.sample_count_lo % 2 ^ 32) with
  | (decoder, sample_count_lo) =>
  let sample_count := ((sample_count_hi <<< 4) % 2 ^ 32) ||| sample_count_lo
  match read_md5 u.v 16 0 decoder [] with
  | (decoder, md5) =>
  (decoder, some
    { minimum_blocksize := minimum_blocksize % 2 ^ 16
      maximum_blocksize := maximum_blocksize % 2 ^ 16
      minimum_frame_size := minimum_frame_size
      maximum_frame_size := maximum_frame_size
      sample_rate := sample_rate
      channel_count := channel_count
      bits_per_sample := bits_per_sample
      sample_count := sample_count
      md5_checksum := md5 })

/-- The body of the `while` loop of `lflac_decode`; `u` is what the locals of the STREAMINFO
decoder hold on entry, should this iteration call it. -/
def lflac_decode_iteration (u : StreamInfoLocals) (st : DecodeState) : IterationResult :=
  match FlacDecoder_parse_metadata_block_header st.decoder with
  | (decoder, none) => .returned .header_read_failed decoder
  | (decoder, some header) =>
    if st.block_count = 0 ∧ header.block_type ≠ 0 then .returned .streaminfo_not_first decoder
    else if header.block_type = 0 then
      match FlacDecoder_parse_STREAMINFO_metadata_block u decoder with
      | (decoder, none) => .returned .block_not_parsed decoder
      | (decoder, some stream_info) =>
        .next { decoder := decoder, stream_info := some stream_info,
                last_metadata_block := header.last, block_count := st.block_count + 1 }
    else if header.block_type = 1 ∨ header.block_type = 4 then
      match FlacDecoder_skip decoder header.length with
      | (decoder, false) => .returned .block_not_parsed decoder
      | (decoder, true) =>
        .next { decoder := decoder, stream_info := st.stream_info,
                last_metadata_block := header.last, block_count := st.block_count + 1 }
    else .returned .unsupported_block_type decoder

/-- The `while (!last_metadata_block)` loop of `lflac_decode` and the `return true` after it,
run for at most `fuel` evaluations of the loop condition; `none` when that is not enough. -/
def lflac_decode_loop (u : Nat → StreamInfoLocals) : Nat → DecodeState → Option DecodeResult
  | 0, _ => none
  | fuel + 1, st =>
    if st.last_metadata_block then some (.returned_true st)
    else
      match lflac_decode_iteration (u st.block_count) st with
      | .returned site decoder => some (.returned_false site decoder)
      | .next st => lflac_decode_loop u fuel st

/-- The statements of `lflac_decode` before its loop: the decoder is initialised (the status of
`FlacDecoder_init` is ignored, as in the source) and the signature validated. -/
def lflac_decode_start (u : Indeterminate) (stream : List Nat) : FlacDecoder × Bool :=
  let decoder : FlacDecoder :=
    { stream := [], pos := 0, bit_index := 0, current_byte := u.current_byte % 256 }
  match FlacDecoder_init decoder stream with
  | (decoder, _) => FlacDecoder_validate_signature decoder

/-- `lflac_decode`. The loop is given one evaluation of its condition per byte of the stream,
and one more. -/
def lflac_decode (u : Indeterminate) (stream : List Nat) : Option DecodeResult :=
  match lflac_decode_start u stream with
  | (decoder, false) => some (.returned_false .invalid_signature decoder)
  | (decoder, true) =>
    lflac_decode_loop u.locals (stream.length + 1)
      { decoder := decoder, stream_info := none, last_metadata_block := false, block_count := 0 }

/-- The state in which `lflac_decode` evaluates its loop condition for the `n`-th time, counted
from 0; `none` when the call has returned before that. -/
def lflac_decode_state_at (u : Indeterminate) (stream : List Nat) : Nat → Option DecodeState
  | 0 =>
    match lflac_decode_start u stream with
    | (_, false) => none
    | (decoder, true) =>
      some { decoder := decoder, stream_info := none, last_metadata_block := false,
             block_count := 0 }
  | n + 1 =>
    match lflac_decode_state_at u stream n with
    | none => none
    | some st =>
      if st.last_metadata_block then none
      else
        match lflac_decode_iteration (u.locals st.block_count) st with
        | .returned _ _ => none
        | .next st => some st

/-! ## The wire format, in the words of the specification -/

/-- Bit `i` of the stream, counted from the most significant bit of the byte at index 0. -/
def spec_stream_bit (s : List Nat) (i : Nat) : Nat :=
  (s[i / 8]?.getD 0 / 2 ^ (7 - i % 8)) % 2

/-- The unsigned value of the `n` consecutive stream bits that start at bit `i`, most
significant bit first. -/
def spec_stream_bits (s : List Nat) (i : Nat) : Nat → Nat
  | 0 => 0
  | n + 1 => 2 * spec_stream_bits s i n + spec_stream_bit s (i + n)

/-- The reader with its cursor on bit `off` of the byte at index `p` of the stream `s`: that
byte is the current byte and the file position is just after it. -/
def cursor_at (s : List Nat) (p off : Nat) : FlacDecoder :=
  { stream := s, pos := p + 1, bit_index := off, current_byte := s[p]?.getD 0 % 256 }

/-- Every element of the stream is a byte. -/
def valid_stream (s : List Nat) : Prop := ∀ b ∈ s, b < 256

instance (s : List Nat) : Decidable (valid_stream s) := by
  unfold valid_stream; infer_instance

/-- Zeroed memory for the uninitialised locals. -/
def zero_locals : StreamInfoLocals :=
  { minimum_blocksize := 0, maximum_blocksize := 0, minimum_frame_size := 0,
    maximum_frame_size := 0, sample_rate := 0, channel_count_bps := 0, sample_count_hi := 0,
    sample_count_lo := 0, v := fun _ => 0 }

/-- Zeroed memory for everything `lflac_decode` leaves uninitialised. -/
def zero_memory : Indeterminate :=
  { current_byte := 0, locals := fun _ => zero_locals }

/-- The signature `fLaC`. -/
def signature : List Nat := [0x66, 0x4C, 0x61, 0x43]

/-- A stream-parameters block that is not the last one, followed by the 4 header bytes of a
block of type 5, which end the stream. -/
def two_block_file_short : List Nat :=
  signature ++ [0x00, 0, 0, 34] ++
    [0x10, 0x00, 0x10, 0x00, 0, 0, 0, 0, 0, 0, 0x0A, 0xC4, 0x42, 0xF0, 0, 0, 0, 0,
     0, 0, 0, 0, 0, 0, 0, 0, 0, 0, 0, 0, 0, 0, 0, 0] ++ [0x85, 0, 0, 0]

/-- The `StreamInfo` a call of `lflac_decode` has stored when it returns true. -/
def decoded_stream_info : Option DecodeResult → Option StreamInfo
  | some (.returned_true st) => st.stream_info
  | _ => none

/-! ## Concrete inputs -/

/-- The 34-byte body of the scenario of the specification: block sizes 4096 and 4096, frame
sizes 0 and 0, sample rate 44100, 2 channels, 16 bits per sample, sample count 0, and a zero
checksum. -/
def scenario_body : List Nat :=
  [0x10, 0x00, 0x10, 0x00, 0, 0, 0, 0, 0, 0, 0x0A, 0xC4, 0x42, 0xF0, 0, 0, 0, 0,
   0, 0, 0, 0, 0, 0, 0, 0, 0, 0, 0, 0, 0, 0, 0, 0]

/-- The record the scenario body stands for. -/
def scenario_stream_info : StreamInfo :=
  { md5_checksum := [0, 0, 0, 0, 0, 0, 0, 0, 0, 0, 0, 0, 0, 0, 0, 0], sample_count := 0,
    sample_rate := 44100, minimum_frame_size := 0, maximum_frame_size := 0,
    minimum_blocksize := 4096, maximum_blocksize := 4096, channel_count := 2,
    bits_per_sample := 16 }

/-- The scenario body with the 5-bit bits-per-sample field set to 0. -/
def low_depth_body : List Nat :=
  [0x10, 0x00, 0x10, 0x00, 0, 0, 0, 0, 0, 0, 0x0A, 0xC4, 0x42, 0x00, 0, 0, 0, 0,
   0, 0, 0, 0, 0, 0, 0, 0, 0, 0, 0, 0, 0, 0, 0, 0]

/-- The scenario body with the 36-bit sample count field set to `2 ^ 32`. -/
def large_count_body : List Nat :=
  [0x10, 0x00, 0x10, 0x00, 0, 0, 0, 0, 0, 0, 0x0A, 0xC4, 0x42, 0xF1, 0, 0, 0, 0,
   0, 0, 0, 0, 0, 0, 0, 0, 0, 0, 0, 0, 0, 0, 0, 0]

/-- The scenario body with the checksum bytes 1, 2, ..., 16. -/
def numbered_md5_body : List Nat :=
  [0x10, 0x00, 0x10, 0x00, 0, 0, 0, 0, 0, 0, 0x0A, 0xC4, 0x42, 0xF0, 0, 0, 0, 0,
   1, 2, 3, 4, 5, 6, 7, 8, 9, 10, 11, 12, 13, 14, 15, 16]

/-- The scenario body with the 20-bit sample rate field set to 0. -/
def zero_rate_body : List Nat :=
  [0x10, 0x00, 0x10, 0x00, 0, 0, 0, 0, 0, 0, 0x00, 0x00, 0x02, 0xF0, 0, 0, 0, 0,
   0, 0, 0, 0, 0, 0, 0, 0, 0, 0, 0, 0, 0, 0, 0, 0]

/-- A file made of one metadata block: the signature, a header byte `b0`, the length 34, and
a body. -/
def single_block_file (b0 : Nat) (body : List Nat) : List Nat :=
  signature ++ [b0, 0, 0, 34] ++ body

/-- A stream-parameters block that is not the last one, followed by the header of a block of
type 5 and one more byte. -/
def two_block_file : List Nat :=
  single_block_file 0x00 scenario_body ++ [0x85, 0, 0, 0, 0]

/-- The scenario file cut after the 14th body byte: the header announces 34 body bytes, the
stream ends after the byte that holds the low bits of the bits-per-sample field. -/
def truncated_file : List Nat :=
  signature ++ [0x80, 0, 0, 34] ++
    [0x10, 0x00, 0x10, 0x00, 0, 0, 0, 0, 0, 0, 0x0A, 0xC4, 0x42, 0xF0]

/-- A file made of the signature, a stream-parameters block that is not the last one, a padding
block of declared length 10 marked last, the padding bytes, and trailing bytes. -/
def padded_file (body padding trailing : List Nat) : List Nat :=
  single_block_file 0x00 body ++ [0x81, 0, 0, 10] ++ padding ++ trailing

/-- The record a stream-parameters body stands for, as the decoder stores it when every read
succeeds. -/
def stream_info_of_body (body : List Nat) : StreamInfo :=
  { minimum_blocksize := spec_stream_bits body 0 16
    maximum_blocksize := spec_stream_bits body 16 16
    minimum_frame_size := spec_stream_bits body 32 24
    maximum_frame_size := spec_stream_bits body 56 24
    sample_rate := spec_stream_bits body 80 20
    channel_count := spec_stream_bits body 100 3 + 1
    bits_per_sample := spec_stream_bits body 103 5 + 1
    sample_count := ((spec_stream_bits body 108 32 <<< 4) % 2 ^ 32) |||
      spec_stream_bits body 140 4
    md5_checksum := (List.range 16).map (fun j => body[18 + j]?.getD 0 % 256) }

/-- The scenario body with the 20-bit sample rate field set to 48000. -/
def second_rate_body : List Nat :=
  [0x10, 0x00, 0x10, 0x00, 0, 0, 0, 0, 0, 0, 0x0B, 0xB8, 0x02, 0xF0, 0, 0, 0, 0,
   0, 0, 0, 0, 0, 0, 0, 0, 0, 0, 0, 0, 0, 0, 0, 0]

/-- A file with two stream-parameters blocks: the scenario block, not marked last, and a
second block of type 0, marked last, whose sample rate is 48000. -/
def two_streaminfo_file : List Nat :=
  single_block_file 0x00 scenario_body ++ [0x80, 0, 0, 34] ++ second_rate_body

/-! ## Instrumentation of the decoder -/

/-- The shift amounts of `1 << left_in_byte` and `>> (left_in_byte - bit_count)` that the last
part of `FlacDecoder_next_bits` (from the `while` loop on) evaluates, as integers. -/
def next_bits_tail_shift_amounts (decoder : FlacDecoder) (bit_count : Nat) : List Int :=
  match next_bits_whole_bytes decoder 0 bit_count with
  | (_, none) => []
  | (decoder, some (_, bit_count)) =>
    if bit_count > 0 then
      let left_in_byte : Int := 8 - (decoder.bit_index : Int)
      [left_in_byte, left_in_byte - (bit_count : Int)]
    else []

/-- The shift amounts of `1 << left_in_byte`, `>> (left_in_byte - count)` and
`>> (left_in_byte - bit_count)` that a call of `FlacDecoder_next_bits` evaluates, in order, as
integers. -/
def next_bits_shift_amounts (decoder : FlacDecoder) (bit_count : Nat) : List Int :=
  if decoder.bit_index > 0 then
    let left_in_byte : Int := 8 - (decoder.bit_index : Int)
    let count : Int := min left_in_byte (bit_count : Int)
    [left_in_byte, left_in_byte - count] ++
      match fread_current_byte decoder with
      | (decoder, n) =>
        if n ≠ 1 then []
        else
          next_bits_tail_shift_amounts { decoder with bit_index := 0 }
            (bit_count - min (8 - decoder.bit_index) bit_count)
  else next_bits_tail_shift_amounts decoder bit_count

/-- The type of the block whose header `lflac_decode` reads in iteration `n` of its loop
(counted from 0); `none` when the call returns before that header is read. -/
def lflac_decode_block_type_at (u : Indeterminate) (stream : List Nat) (n : Nat) : Option Nat :=
  match lflac_decode_state_at u stream n with
  | none => none
  | some st =>
    if st.last_metadata_block then none
    else
      match FlacDecoder_parse_metadata_block_header st.decoder with
      | (_, none) => none
      | (_, some header) => some header.block_type

/-! ## How far a call moves the reader -/

/-- From `d` to `d2` the reader stayed on the same stream and moved its file position at least
`k` bytes forward, without passing the end of the stream if it started inside it or if `k` is
positive. -/
def reads (k : Nat) (d d2 : FlacDecoder) : Prop :=
  d2.stream = d.stream ∧ d.pos + k ≤ d2.pos ∧
    (d.pos ≤ d.stream.length ∨ 0 < k → d2.pos ≤ d.stream.length)

/-! ## The bit reader against the wire format -/

theorem fread_current_byte_eq (d : FlacDecoder) :
    fread_current_byte d =
      if d.pos < d.stream.length then
        ({ d with current_byte := d.stream[d.pos]?.getD 0 % 256, pos := d.pos + 1 }, 1)
      else (d, 0) := by
  unfold fread_current_byte
  split_ifs with h
  · rw [List.getElem?_eq_getElem h]; simp
  · rw [List.getElem?_eq_none (by omega)]

theorem spec_stream_bit_in_byte (s : List Nat) (p j : Nat) (hj : j < 8) :
    spec_stream_bit s (8 * p + j) = (s[p]?.getD 0 / 2 ^ (7 - j)) % 2 := by
  unfold spec_stream_bit
  have h1 : (8 * p + j) / 8 = p := by omega
  have h2 : (8 * p + j) % 8 = j := by omega
  rw [h1, h2]

theorem spec_stream_bits_add (s : List Nat) (i a b : Nat) :
    spec_stream_bits s i (a + b) = spec_stream_bits s i a * 2 ^ b + spec_stream_bits s (i + a) b := by
  induction b with
  | zero => simp [spec_stream_bits]
  | succ b ih =>
    rw [← Nat.add_assoc, spec_stream_bits, ih, spec_stream_bits, Nat.add_assoc i a b]
    ring

theorem spec_stream_bits_lt (s : List Nat) (i n : Nat) : spec_stream_bits s i n < 2 ^ n := by
  induction n with
  | zero => simp [spec_stream_bits]
  | succ n ih =>
    rw [spec_stream_bits, Nat.pow_succ]
    have : spec_stream_bit s (i + n) < 2 := Nat.mod_lt _ (by decide)
    omega

theorem spec_stream_bits_in_byte (s : List Nat) (p k m : Nat) (h : k + m ≤ 8) :
    spec_stream_bits s (8 * p + k) m = (s[p]?.getD 0 % 2 ^ (8 - k)) / 2 ^ (8 - k - m) := by
  induction m with
  | zero =>
    simp only [spec_stream_bits, Nat.sub_zero]
    exact (Nat.div_eq_of_lt (Nat.mod_lt _ (by positivity))).symm
  | succ m ih =>
    rw [spec_stream_bits, ih (by omega), Nat.add_assoc, spec_stream_bit_in_byte s p (k + m) (by omega)]
    generalize s[p]?.getD 0 = x
    have e1 : 8 - k - m = (8 - k - (m + 1)) + 1 := by omega
    have e2 : 7 - (k + m) = 8 - k - (m + 1) := by omega
    have e3 : 8 - k = (8 - k - (m + 1)) + (m + 1) := by omega
    rw [e1, e2]
    generalize 8 - k - (m + 1) = j at *
    rw [e3]
    have hb : (x % 2 ^ (j + (m + 1))) / 2 ^ j % 2 = x / 2 ^ j % 2 := by
      rw [Nat.pow_add, Nat.mod_mul_right_div_self, pow_succ, Nat.mod_mul_left_mod]
    rw [← hb, Nat.pow_succ, ← Nat.div_div_eq_div_mul]
    omega

theorem fread_cursor_at (s : List Nat) (p off : Nat) (h : p + 1 < s.length) :
    fread_current_byte (cursor_at s p off) = ({ cursor_at s (p + 1) 0 with bit_index := off }, 1) := by
  rw [fread_current_byte_eq]
  simp [cursor_at, h]

theorem fread_cursor_at_eof (s : List Nat) (p off : Nat) (h : s.length ≤ p + 1) :
    fread_current_byte (cursor_at s p off) = (cursor_at s p off, 0) := by
  rw [fread_current_byte_eq]
  simp [cursor_at]
  omega

theorem spec_stream_bits_byte (s : List Nat) (p : Nat) :
    spec_stream_bits s (8 * p) 8 = s[p]?.getD 0 % 256 := by
  have h := spec_stream_bits_in_byte s p 0 8 (by omega)
  simpa using h

theorem next_bits_whole_bytes_lt (d : FlacDecoder) (r m : Nat) (hm : m < 8) :
    next_bits_whole_bytes d r m = (d, some (r, m)) := by
  unfold next_bits_whole_bytes
  split
  · omega
  · rfl

theorem next_bits_whole_bytes_ok (s : List Nat) (m : Nat) (hm : m < 8) :
    ∀ (k p r : Nat), 8 * k + m ≤ 32 → r < 2 ^ (32 - (8 * k + m)) → p + k < s.length →
      next_bits_whole_bytes (cursor_at s p 0) r (8 * k + m) =
        (cursor_at s (p + k) 0, some (r * 2 ^ (8 * k) + spec_stream_bits s (8 * p) (8 * k), m)) := by
  intro k
  induction k with
  | zero =>
    intro p r _ _ _
    simp [next_bits_whole_bytes_lt _ _ _ hm, spec_stream_bits]
  | succ k ih =>
    intro p r h32 hr hlen
    have e : 8 * (k + 1) + m = (8 * k + m) + 8 := by ring
    rw [e, next_bits_whole_bytes, fread_cursor_at s p 0 (by omega)]
    have hX : 2 ^ (32 - (8 * k + m)) = 2 ^ (32 - (8 * (k + 1) + m)) * 2 ^ 8 := by
      rw [← Nat.pow_add]; congr 1; omega
    have hX24 : 2 ^ (32 - (8 * (k + 1) + m)) ≤ 2 ^ 24 :=
      Nat.pow_le_pow_right (by decide) (by omega)
    have hb : s[p]?.getD 0 % 256 < 2 ^ 8 := Nat.mod_lt _ (by decide)
    have hres : ((r <<< 8) % 2 ^ 32) ||| (cursor_at s p 0).current_byte
        = r * 256 + s[p]?.getD 0 % 256 := by
      rw [Nat.shiftLeft_eq, Nat.mod_eq_of_lt (by norm_num at hX24 ⊢; omega)]
      simp only [cursor_at]
      have := Nat.mul_add_lt_is_or hb r
      rw [Nat.mul_comm] at this
      exact this.symm
    simp only [hres, ne_eq, not_true_eq_false, ↓reduceIte]
    have hst : ({ ({ cursor_at s (p + 1) 0 with bit_index := 0 } : FlacDecoder) with bit_index := 0 } : FlacDecoder)
        = cursor_at s (p + 1) 0 := rfl
    rw [hst, ih (p + 1) (r * 256 + s[p]?.getD 0 % 256) (by omega) (by rw [hX]; norm_num at hb ⊢; omega) (by omega)]
    have e2 : 8 * (k + 1) = 8 + 8 * k := by ring
    rw [e2, spec_stream_bits_add, spec_stream_bits_byte]
    have e3 : p + 1 + k = p + (k + 1) := by ring
    have e4 : 8 * (p + 1) = 8 * p + 8 := by ring
    rw [e3, e4]
    congr 3
    rw [Nat.pow_add]; ring

theorem next_bits_whole_bytes_eof (s : List Nat) (m : Nat) :
    ∀ (k p r : Nat), s.length ≤ p + k → p < s.length →
      (next_bits_whole_bytes (cursor_at s p 0) r (8 * k + m)).2 = none := by
  intro k
  induction k with
  | zero => intro p r h1 h2; omega
  | succ k ih =>
    intro p r hlen hp
    have e : 8 * (k + 1) + m = (8 * k + m) + 8 := by ring
    rw [e, next_bits_whole_bytes]
    by_cases h : p + 1 < s.length
    · rw [fread_cursor_at s p 0 h]
      simp only [ne_eq, not_true_eq_false, ↓reduceIte]
      exact ih (p + 1) _ (by omega) h
    · rw [fread_cursor_at_eof s p 0 (by omega)]
      simp

theorem next_bits_tail_ok (s : List Nat) (k m p r : Nat) (hm : m < 8) (h32 : 8 * k + m ≤ 32)
    (hr : r < 2 ^ (32 - (8 * k + m))) (hlen : p + k < s.length) :
    next_bits_tail (cursor_at s p 0) r (8 * k + m) =
      (cursor_at s (p + k) m,
        some (r * 2 ^ (8 * k + m) + spec_stream_bits s (8 * p) (8 * k + m))) := by
  unfold next_bits_tail
  rw [next_bits_whole_bytes_ok s m hm k p r h32 hr hlen]
  simp only
  by_cases h0 : m = 0
  · subst h0
    simp [cursor_at]
  · have hpos : m > 0 := Nat.pos_of_ne_zero h0
    simp only [hpos, ↓reduceIte]
    have hlow : ((cursor_at s (p + k) 0).current_byte &&&
          ((1 <<< (8 - (cursor_at s (p + k) 0).bit_index)) - 1)) >>>
          (8 - (cursor_at s (p + k) 0).bit_index - m)
        = spec_stream_bits s (8 * (p + k)) m := by
      have h := spec_stream_bits_in_byte s (p + k) 0 m (by omega)
      simp only [Nat.add_zero, Nat.sub_zero] at h
      rw [h]
      simp only [cursor_at, Nat.sub_zero, Nat.one_shiftLeft, Nat.and_pow_two_sub_one_eq_mod,
        Nat.shiftRight_eq_div_pow]
      norm_num
    rw [hlow]
    set R := r * 2 ^ (8 * k) + spec_stream_bits s (8 * p) (8 * k) with hR
    have hbits := spec_stream_bits_lt s (8 * p) (8 * k)
    have hlowlt := spec_stream_bits_lt s (8 * (p + k)) m
    have hX : 2 ^ (32 - m) = 2 ^ (32 - (8 * k + m)) * 2 ^ (8 * k) := by
      rw [← Nat.pow_add]; congr 1; omega
    have hRlt : R < 2 ^ (32 - m) := by
      rw [hX, hR]
      calc r * 2 ^ (8 * k) + spec_stream_bits s (8 * p) (8 * k)
          < r * 2 ^ (8 * k) + 2 ^ (8 * k) := by omega
        _ = (r + 1) * 2 ^ (8 * k) := by ring
        _ ≤ 2 ^ (32 - (8 * k + m)) * 2 ^ (8 * k) := Nat.mul_le_mul_right _ hr
    have hRm : R * 2 ^ m < 2 ^ 32 := by
      have e : (2 : Nat) ^ 32 = 2 ^ (32 - m) * 2 ^ m := by
        rw [← Nat.pow_add]; congr 1; omega
      rw [e]
      exact Nat.mul_lt_mul_of_pos_right hRlt (by positivity)
    have hor : ((R <<< m) % 2 ^ 32) ||| spec_stream_bits s (8 * (p + k)) m
        = R * 2 ^ m + spec_stream_bits s (8 * (p + k)) m := by
      rw [Nat.shiftLeft_eq, Nat.mod_eq_of_lt hRm]
      have := Nat.mul_add_lt_is_or hlowlt R
      rw [Nat.mul_comm] at this
      exact this.symm
    rw [hor]
    have hst : ({ cursor_at s (p + k) 0 with
        bit_index := ((cursor_at s (p + k) 0).bit_index + m) % 256 } : FlacDecoder)
        = cursor_at s (p + k) m := by
      simp only [cursor_at, Nat.zero_add]
      congr 1
      omega
    rw [hst, spec_stream_bits_add s (8 * p) (8 * k) m, hR]
    have e5 : 8 * (p + k) = 8 * p + 8 * k := by ring
    rw [e5, Nat.pow_add]
    congr 2
    ring

theorem next_bits_tail_eof (s : List Nat) (k m p r : Nat) (hlen : s.length ≤ p + k)
    (hp : p < s.length) : (next_bits_tail (cursor_at s p 0) r (8 * k + m)).2 = none := by
  have h := next_bits_whole_bytes_eof s m k p r hlen hp
  unfold next_bits_tail
  generalize next_bits_whole_bytes (cursor_at s p 0) r (8 * k + m) = x at h
  obtain ⟨d, o⟩ := x
  simp only at h
  subst h
  rfl

theorem next_bits_aligned_ok (s : List Nat) (p k m : Nat) (hm : m < 8) (h32 : 8 * k + m ≤ 32)
    (hlen : p + k < s.length) :
    FlacDecoder_next_bits (cursor_at s p 0) (8 * k + m) =
      (cursor_at s (p + k) m, some (spec_stream_bits s (8 * p) (8 * k + m))) := by
  unfold FlacDecoder_next_bits
  have h0 : ¬ (cursor_at s p 0).bit_index > 0 := by simp [cursor_at]
  rw [if_neg h0, next_bits_tail_ok s k m p 0 hm h32 (by positivity) hlen]
  simp

theorem next_bits_aligned_eof (s : List Nat) (p k m : Nat) (hlen : s.length ≤ p + k)
    (hp : p < s.length) : (FlacDecoder_next_bits (cursor_at s p 0) (8 * k + m)).2 = none := by
  unfold FlacDecoder_next_bits
  have h0 : ¬ (cursor_at s p 0).bit_index > 0 := by simp [cursor_at]
  rw [if_neg h0]
  exact next_bits_tail_eof s k m p 0 hlen hp

theorem next_bits_first_part (s : List Nat) (p off n : Nat) (h7 : off ≤ 7) :
    ((cursor_at s p off).current_byte &&& ((1 <<< (8 - (cursor_at s p off).bit_index)) - 1)) >>>
        (8 - (cursor_at s p off).bit_index - min (8 - (cursor_at s p off).bit_index) n)
      = spec_stream_bits s (8 * p + off) (min (8 - off) n) := by
  rw [spec_stream_bits_in_byte s p off (min (8 - off) n) (by omega)]
  simp only [cursor_at, Nat.one_shiftLeft, Nat.and_pow_two_sub_one_eq_mod,
    Nat.shiftRight_eq_div_pow]
  have hd : 2 ^ (8 - off) ∣ 256 := by
    have : (256 : Nat) = 2 ^ 8 := by norm_num
    rw [this]
    exact Nat.pow_dvd_pow 2 (by omega)
  rw [Nat.mod_mod_of_dvd _ hd]

theorem next_bits_unaligned_ok (s : List Nat) (p off n k m : Nat) (h1 : 0 < off) (h7 : off ≤ 7)
    (hn : n ≤ 32) (hm : m < 8) (hkm : n - min (8 - off) n = 8 * k + m)
    (hlen : p + 1 + k < s.length) :
    FlacDecoder_next_bits (cursor_at s p off) n =
      (cursor_at s (p + 1 + k) m, some (spec_stream_bits s (8 * p + off) n)) := by
  unfold FlacDecoder_next_bits
  have h0 : (cursor_at s p off).bit_index > 0 := by simpa [cursor_at] using h1
  rw [if_pos h0]
  simp only [next_bits_first_part s p off n h7]
  rw [fread_cursor_at s p off (by omega)]
  simp only [ne_eq, not_true_eq_false, ↓reduceIte]
  have hst : ({ ({ cursor_at s (p + 1) 0 with bit_index := off } : FlacDecoder) with
      bit_index := 0 } : FlacDecoder) = cursor_at s (p + 1) 0 := rfl
  have hbi : (cursor_at s p off).bit_index = off := rfl
  rw [hst, hbi, hkm]
  have hc := spec_stream_bits_lt s (8 * p + off) (min (8 - off) n)
  have hr : spec_stream_bits s (8 * p + off) (min (8 - off) n) < 2 ^ (32 - (8 * k + m)) :=
    lt_of_lt_of_le hc (Nat.pow_le_pow_right (by decide) (by omega))
  rw [next_bits_tail_ok s k m (p + 1) _ hm (by omega) hr hlen]
  congr 2
  have hsplit : n = min (8 - off) n + (8 * k + m) := by omega
  conv_rhs => rw [hsplit, spec_stream_bits_add]
  congr 1
  by_cases hc2 : 8 - off ≤ n
  · have : 8 * p + off + min (8 - off) n = 8 * (p + 1) := by
      rw [Nat.min_eq_left hc2]; omega
    rw [this]
  · have hz : 8 * k + m = 0 := by omega
    rw [hz]
    rfl

theorem next_bits_unaligned_eof (s : List Nat) (p off n k m : Nat) (h1 : 0 < off)
    (hkm : n - min (8 - off) n = 8 * k + m) (hlen : s.length ≤ p + 1 + k) (hp : p < s.length) :
    (FlacDecoder_next_bits (cursor_at s p off) n).2 = none := by
  unfold FlacDecoder_next_bits
  have h0 : (cursor_at s p off).bit_index > 0 := by simpa [cursor_at] using h1
  rw [if_pos h0]
  simp only
  by_cases h : p + 1 < s.length
  · rw [fread_cursor_at s p off h]
    simp only [ne_eq, not_true_eq_false, ↓reduceIte]
    have hst : ({ ({ cursor_at s (p + 1) 0 with bit_index := off } : FlacDecoder) with
        bit_index := 0 } : FlacDecoder) = cursor_at s (p + 1) 0 := rfl
    have hbi : (cursor_at s p off).bit_index = off := rfl
    rw [hst, hbi, hkm]
    exact next_bits_tail_eof s k m (p + 1) _ (by omega) h
  · rw [fread_cursor_at_eof s p off (by omega)]
    simp

/-- C1. Whenever `FlacDecoder_next_bits` returns true, with the cursor on bit `off` (0 to 7) of
the byte at index `p` and a width of at most 32, the integer it stores is the unsigned value of
the next `width` stream bits from the cursor on, most significant bit first. -/
theorem next_bits_returns_stream_bits (s : List Nat) (p off width : Nat) (d : FlacDecoder)
    (v : Nat) (hp : p < s.length) (hoff : off ≤ 7) (hw : width ≤ 32)
    (h : FlacDecoder_next_bits (cursor_at s p off) width = (d, some v)) :
    v = spec_stream_bits s (8 * p + off) width := by
  rcases Nat.eq_zero_or_pos off with h0 | h1
  · subst h0
    have e : width = 8 * (width / 8) + width % 8 := by omega
    by_cases hlen : p + width / 8 < s.length
    · rw [e, next_bits_aligned_ok s p (width / 8) (width % 8) (by omega) (by omega) hlen] at h
      rw [← e] at h
      simp only [Prod.mk.injEq, Option.some.injEq] at h
      simpa using h.2.symm
    · have hf := next_bits_aligned_eof s p (width / 8) (width % 8) (by omega) hp
      rw [← e, h] at hf
      simp at hf
  · set r := width - min (8 - off) width with hr
    have e : r = 8 * (r / 8) + r % 8 := by omega
    by_cases hlen : p + 1 + r / 8 < s.length
    · rw [next_bits_unaligned_ok s p off width (r / 8) (r % 8) h1 hoff hw (by omega) e hlen] at h
      simp only [Prod.mk.injEq, Option.some.injEq] at h
      exact h.2.symm
    · have hf := next_bits_unaligned_eof s p off width (r / 8) (r % 8) h1 e (by omega) hp
      rw [h] at hf
      simp at hf

/-- C1, witness: 13 bits read from bit 3 of the second byte of `AB CD EF 01` are `0x0DEF`. -/
theorem next_bits_returns_stream_bits_witness :
    FlacDecoder_next_bits (cursor_at [0xAB, 0xCD, 0xEF, 0x01] 1 3) 13
      = (cursor_at [0xAB, 0xCD, 0xEF, 0x01] 3 0, some 0x0DEF) ∧
    0x0DEF = spec_stream_bits [0xAB, 0xCD, 0xEF, 0x01] (8 * 1 + 3) 13 :=
  ⟨by decide, next_bits_returns_stream_bits [0xAB, 0xCD, 0xEF, 0x01] 1 3 13
    (cursor_at [0xAB, 0xCD, 0xEF, 0x01] 3 0) 0x0DEF (by decide) (by decide) (by decide)
    (by decide)⟩

/-! ## Progress of the reader through the stream -/

theorem reads_refl (d : FlacDecoder) : reads 0 d d := by
  simp [reads]

theorem reads_trans {a b : Nat} {d d2 d3 : FlacDecoder} (h1 : reads a d d2) (h2 : reads b d2 d3) :
    reads (a + b) d d3 := by
  obtain ⟨s1, p1, l1⟩ := h1
  obtain ⟨s2, p2, l2⟩ := h2
  rw [s1] at l2 s2
  refine ⟨s2, by omega, ?_⟩
  intro h
  by_cases hb : 0 < b
  · exact l2 (Or.inr hb)
  · exact l2 (Or.inl (l1 (by omega)))

theorem reads_mono {a b : Nat} {d d2 : FlacDecoder} (h : reads a d d2) (hb : b ≤ a) :
    reads b d d2 := by
  obtain ⟨s1, p1, l1⟩ := h
  exact ⟨s1, by omega, fun h => l1 (by omega)⟩

theorem reads_set_bit_index {k : Nat} {d d2 : FlacDecoder} (h : reads k d d2) (b : Nat) :
    reads k d { d2 with bit_index := b } := h

theorem fread_reads (d : FlacDecoder) :
    reads 0 d (fread_current_byte d).1 ∧
      ((fread_current_byte d).2 = 1 → reads 1 d (fread_current_byte d).1) ∧
      ((fread_current_byte d).2 ≠ 1 → (fread_current_byte d).2 = 0) := by
  rw [fread_current_byte_eq]
  split_ifs with h
  · simp only [reads]
    refine ⟨⟨trivial, by omega, fun _ => by omega⟩, fun _ => ⟨trivial, by omega, fun _ => by omega⟩, by simp⟩
  · simp [reads]

theorem next_bits_whole_bytes_reads (m : Nat) (hm : m < 8) :
    ∀ (k : Nat) (d : FlacDecoder) (r : Nat),
      reads 0 d (next_bits_whole_bytes d r (8 * k + m)).1 ∧
        ((next_bits_whole_bytes d r (8 * k + m)).2 ≠ none →
          reads k d (next_bits_whole_bytes d r (8 * k + m)).1 ∧
          ∃ r2, (next_bits_whole_bytes d r (8 * k + m)).2 = some (r2, m)) := by
  intro k
  induction k with
  | zero =>
    intro d r
    simp only [Nat.mul_zero, Nat.zero_add, next_bits_whole_bytes_lt d r m hm]
    exact ⟨reads_refl d, fun _ => ⟨reads_refl d, r, rfl⟩⟩
  | succ k ih =>
    intro d r
    have e : 8 * (k + 1) + m = (8 * k + m) + 8 := by ring
    rw [e, next_bits_whole_bytes]
    obtain ⟨f0, f1, f2⟩ := fread_reads d
    generalize fread_current_byte d = x at f0 f1 f2
    obtain ⟨d1, n⟩ := x
    simp only at f0 f1 f2 ⊢
    by_cases hn : n = 1
    · subst hn
      simp only [ne_eq, not_true_eq_false, ↓reduceIte]
      have h1 : reads 1 d { d1 with bit_index := 0 } := f1 rfl
      obtain ⟨g0, g1⟩ := ih { d1 with bit_index := 0 } (r <<< 8 % 2 ^ 32 ||| d.current_byte)
      refine ⟨reads_mono (reads_trans h1 g0) (by omega), fun hne => ?_⟩
      obtain ⟨g2, g3⟩ := g1 hne
      exact ⟨reads_mono (reads_trans h1 g2) (by omega), g3⟩
    · simp only [ne_eq, hn, not_false_eq_true, ↓reduceIte]
      exact ⟨f0, fun h => absurd trivial h⟩

theorem next_bits_tail_reads (d : FlacDecoder) (r n : Nat) :
    reads 0 d (next_bits_tail d r n).1 ∧
      ((next_bits_tail d r n).2 ≠ none → reads (n / 8) d (next_bits_tail d r n).1) := by
  have e : n = 8 * (n / 8) + n % 8 := by omega
  obtain ⟨g0, g1⟩ := next_bits_whole_bytes_reads (n % 8) (by omega) (n / 8) d r
  rw [← e] at g0 g1
  unfold next_bits_tail
  generalize next_bits_whole_bytes d r n = x at g0 g1
  obtain ⟨d1, o⟩ := x
  cases o with
  | none => exact ⟨g0, fun h => absurd rfl h⟩
  | some q =>
    obtain ⟨r2, m2⟩ := q
    obtain ⟨g2, -⟩ := g1 (by simp)
    simp only at g0 g2 ⊢
    split_ifs
    · exact ⟨g0, fun _ => g2⟩
    · exact ⟨g0, fun _ => g2⟩

theorem next_bits_reads (d : FlacDecoder) (n : Nat) :
    reads 0 d (FlacDecoder_next_bits d n).1 ∧
      ((FlacDecoder_next_bits d n).2 ≠ none → reads (n / 8) d (FlacDecoder_next_bits d n).1) := by
  unfold FlacDecoder_next_bits
  split_ifs with hb
  · obtain ⟨f0, f1, f2⟩ := fread_reads d
    generalize fread_current_byte d = x at f0 f1 f2
    obtain ⟨d1, c⟩ := x
    simp only at f0 f1 f2 ⊢
    by_cases hc : c = 1
    · subst hc
      simp only [ne_eq, not_true_eq_false, ↓reduceIte]
      have h1 : reads 1 d { d1 with bit_index := 0 } := f1 rfl
      obtain ⟨g0, g1⟩ := next_bits_tail_reads { d1 with bit_index := 0 }
        ((d.current_byte &&& (1 <<< (8 - d.bit_index) - 1)) >>>
          (8 - d.bit_index - min (8 - d.bit_index) n)) (n - min (8 - d.bit_index) n)
      refine ⟨reads_mono (reads_trans h1 g0) (by omega), fun hne => ?_⟩
      refine reads_mono (reads_trans h1 (g1 hne)) ?_
      omega
    · simp only [ne_eq, hc, not_false_eq_true, ↓reduceIte]
      exact ⟨f0, fun h => absurd trivial h⟩
  · exact next_bits_tail_reads d 0 n

theorem next_bits_into_reads (d : FlacDecoder) (n old : Nat) :
    reads 0 d (next_bits_into d n old).1 := by
  obtain ⟨g0, -⟩ := next_bits_reads d n
  unfold next_bits_into
  generalize FlacDecoder_next_bits d n = x at g0
  obtain ⟨d1, o⟩ := x
  cases o <;> exact g0

/-! ## Reads that end inside the stream -/

theorem next_bits_ok (s : List Nat) (p off n p2 off2 : Nat) (hoff : off ≤ 7) (hn : n ≤ 32)
    (hgood : off = 0 ∨ 8 - off ≤ n) (hpos : 8 * p + off + n = 8 * p2 + off2) (hoff2 : off2 < 8)
    (hlen : p2 < s.length) :
    FlacDecoder_next_bits (cursor_at s p off) n =
      (cursor_at s p2 off2, some (spec_stream_bits s (8 * p + off) n)) := by
  rcases Nat.eq_zero_or_pos off with h0 | h1
  · subst h0
    obtain rfl : n = 8 * (p2 - p) + off2 := by omega
    have e : p + (p2 - p) = p2 := by omega
    rw [next_bits_aligned_ok s p (p2 - p) off2 hoff2 hn (by omega), e]
    rfl
  · have e : p + 1 + (p2 - p - 1) = p2 := by omega
    rw [next_bits_unaligned_ok s p off n (p2 - p - 1) off2 h1 hoff hn hoff2 (by omega)
      (by omega), e]

theorem next_bits_into_ok (s : List Nat) (p off n p2 off2 old : Nat) (hoff : off ≤ 7)
    (hn : n ≤ 32) (hgood : off = 0 ∨ 8 - off ≤ n) (hpos : 8 * p + off + n = 8 * p2 + off2)
    (hoff2 : off2 < 8) (hlen : p2 < s.length) :
    next_bits_into (cursor_at s p off) n old =
      (cursor_at s p2 off2, spec_stream_bits s (8 * p + off) n) := by
  unfold next_bits_into
  rw [next_bits_ok s p off n p2 off2 hoff hn hgood hpos hoff2 hlen]

theorem next_bits_eof (s : List Nat) (p off n : Nat) (hoff : off ≤ 7)
    (hgood : off = 0 ∨ 8 - off ≤ n) (hp : p < s.length) (hlen : s.length ≤ (8 * p + off + n) / 8) :
    (FlacDecoder_next_bits (cursor_at s p off) n).2 = none := by
  rcases Nat.eq_zero_or_pos off with h0 | h1
  · subst h0
    have e : n = 8 * (n / 8) + n % 8 := by omega
    rw [e]
    exact next_bits_aligned_eof s p (n / 8) (n % 8) (by omega) hp
  · have e : n - min (8 - off) n = 8 * ((n - min (8 - off) n) / 8) + (n - min (8 - off) n) % 8 := by
      omega
    exact next_bits_unaligned_eof s p off n _ _ h1 e (by omega) hp

/-! ## The metadata block header -/

set_option maxRecDepth 100000 in
theorem byte_last_flag : ∀ b < 256, ((b &&& 0x80) != 0) = decide (128 ≤ b) := by
  decide

set_option maxRecDepth 100000 in
theorem byte_block_type : ∀ b < 256, (b &&& 0x7f) % 256 = b % 128 := by
  decide

theorem spec_stream_bits_three_bytes (s : List Nat) (p : Nat) :
    spec_stream_bits s (8 * p) 24 =
      (s[p]?.getD 0 % 256) * 65536 + (s[p + 1]?.getD 0 % 256) * 256 + s[p + 2]?.getD 0 % 256 := by
  have e : (24 : Nat) = 8 + (8 + 8) := rfl
  rw [e, spec_stream_bits_add, spec_stream_bits_add, spec_stream_bits_byte]
  have e1 : 8 * p + 8 = 8 * (p + 1) := by ring
  have e2 : 8 * (p + 1) + 8 = 8 * (p + 2) := by ring
  rw [e1, spec_stream_bits_byte, e2, spec_stream_bits_byte]
  ring

theorem parse_metadata_block_header_ok (s : List Nat) (p : Nat) (h : p + 4 < s.length) :
    FlacDecoder_parse_metadata_block_header (cursor_at s p 0) =
      (cursor_at s (p + 4) 0,
        some { length := spec_stream_bits s (8 * (p + 1)) 24
               block_type := (s[p]?.getD 0 % 256) % 128
               last := decide (128 ≤ s[p]?.getD 0 % 256) }) := by
  unfold FlacDecoder_parse_metadata_block_header
  rw [next_bits_ok s p 0 8 (p + 1) 0 (by omega) (by omega) (Or.inl rfl) (by omega) (by omega)
    (by omega)]
  simp only
  rw [next_bits_ok s (p + 1) 0 24 (p + 4) 0 (by omega) (by omega) (Or.inl rfl) (by omega)
    (by omega) (by omega)]
  simp only [Nat.add_zero, spec_stream_bits_byte]
  have hb : s[p]?.getD 0 % 256 < 256 := Nat.mod_lt _ (by decide)
  rw [byte_last_flag _ hb, byte_block_type _ hb, Nat.one_shiftLeft,
    Nat.and_pow_two_sub_one_eq_mod, Nat.mod_eq_of_lt (spec_stream_bits_lt s _ 24)]

theorem parse_metadata_block_header_eof (s : List Nat) (p : Nat) (hp : p < s.length)
    (h : s.length ≤ p + 4) :
    (FlacDecoder_parse_metadata_block_header (cursor_at s p 0)).2 = none := by
  unfold FlacDecoder_parse_metadata_block_header
  by_cases h1 : p + 1 < s.length
  · rw [next_bits_ok s p 0 8 (p + 1) 0 (by omega) (by omega) (Or.inl rfl) (by omega) (by omega)
      h1]
    simp only
    have hf := next_bits_eof s (p + 1) 0 24 (by omega) (Or.inl rfl) h1 (by omega)
    generalize FlacDecoder_next_bits (cursor_at s (p + 1) 0) 24 = x at hf
    obtain ⟨d, o⟩ := x
    simp only at hf
    subst hf
    rfl
  · have hf := next_bits_eof s p 0 8 (by omega) (Or.inl rfl) hp (by omega)
    generalize FlacDecoder_next_bits (cursor_at s p 0) 8 = x at hf
    obtain ⟨d, o⟩ := x
    simp only at hf
    subst hf
    rfl

/-! ## The STREAMINFO decoder -/

theorem valid_stream_getD (s : List Nat) (hv : valid_stream s) (i : Nat) :
    s[i]?.getD 0 % 256 = s[i]?.getD 0 := by
  apply Nat.mod_eq_of_lt
  by_cases h : i < s.length
  · rw [List.getElem?_eq_getElem h]
    exact hv _ (List.getElem_mem h)
  · rw [List.getElem?_eq_none (by omega)]
    decide

theorem channel_count_bps_split (s : List Nat) (i : Nat) :
    ((spec_stream_bits s i 8 >>> 5) + 1) % 256 = spec_stream_bits s i 3 + 1 ∧
      ((spec_stream_bits s i 8 &&& 0x1F) + 1) % 256 = spec_stream_bits s (i + 3) 5 + 1 := by
  have e : (8 : Nat) = 3 + 5 := rfl
  have h3 := spec_stream_bits_lt s i 3
  have h5 := spec_stream_bits_lt s (i + 3) 5
  have hm : (0x1F : Nat) = 2 ^ 5 - 1 := by norm_num
  rw [hm, Nat.and_pow_two_sub_one_eq_mod, Nat.shiftRight_eq_div_pow, e, spec_stream_bits_add]
  norm_num at h3 h5 ⊢
  omega

theorem read_md5_ok (s : List Nat) (v : Nat → Nat) :
    ∀ (n i q : Nat) (md5 : List Nat), q + n < s.length →
      read_md5 v n i (cursor_at s q 0) md5 =
        (cursor_at s (q + n) 0, md5 ++ (List.range n).map (fun j => s[q + j]?.getD 0 % 256)) := by
  intro n
  induction n with
  | zero => intro i q md5 _; simp [read_md5]
  | succ n ih =>
    intro i q md5 h
    rw [read_md5, next_bits_into_ok s q 0 8 (q + 1) 0 _ (by omega) (by omega) (Or.inl rfl)
      (by omega) (by omega) (by omega)]
    simp only [Nat.add_zero, spec_stream_bits_byte]
    rw [ih (i + 1) (q + 1) _ (by omega)]
    have hb : (s[q]?.getD 0 % 256 &&& 0xFF) % 256 = s[q]?.getD 0 % 256 := by
      have hm : (0xFF : Nat) = 2 ^ 8 - 1 := by norm_num
      rw [hm, Nat.and_pow_two_sub_one_eq_mod]
      norm_num
    rw [hb, List.range_succ_eq_map, List.map_cons, List.map_map]
    have e : q + 1 + n = q + (n + 1) := by ring
    have hf : (fun j => s[q + 1 + j]?.getD 0 % 256) =
        (fun j => s[q + j]?.getD 0 % 256) ∘ Nat.succ := by
      funext j
      have e2 : q + 1 + j = q + (j + 1) := by ring
      simp only [Function.comp_apply, Nat.succ_eq_add_one, e2]
    rw [e, hf]
    simp only [List.append_assoc, List.singleton_append, Nat.add_zero]

theorem parse_STREAMINFO_zero_rate (u : StreamInfoLocals) (s : List Nat) (p : Nat)
    (hlen : p + 12 < s.length) (hrate : spec_stream_bits s (8 * p + 80) 20 = 0) :
    FlacDecoder_parse_STREAMINFO_metadata_block u (cursor_at s p 0) =
      (cursor_at s (p + 12) 4, none) := by
  unfold FlacDecoder_parse_STREAMINFO_metadata_block
  rw [next_bits_into_ok s p 0 16 (p + 2) 0 _ (by omega) (by omega) (Or.inl rfl) (by omega)
    (by omega) (by omega)]
  dsimp only
  rw [next_bits_into_ok s (p + 2) 0 16 (p + 4) 0 _ (by omega) (by omega) (Or.inl rfl) (by omega)
    (by omega) (by omega)]
  dsimp only
  rw [next_bits_into_ok s (p + 4) 0 24 (p + 7) 0 _ (by omega) (by omega) (Or.inl rfl) (by omega)
    (by omega) (by omega)]
  dsimp only
  rw [next_bits_into_ok s (p + 7) 0 24 (p + 10) 0 _ (by omega) (by omega) (Or.inl rfl)
    (by omega) (by omega) (by omega)]
  dsimp only
  rw [next_bits_into_ok s (p + 10) 0 20 (p + 12) 4 _ (by omega) (by omega) (Or.inl rfl)
    (by omega) (by omega) (by omega)]
  dsimp only
  have e : 8 * (p + 10) + 0 = 8 * p + 80 := by ring
  rw [e, if_pos hrate]

theorem parse_STREAMINFO_ok (u : StreamInfoLocals) (s : List Nat) (p : Nat)
    (hlen : p + 18 < s.length) (hrate : spec_stream_bits s (8 * p + 80) 20 ≠ 0) :
    FlacDecoder_parse_STREAMINFO_metadata_block u (cursor_at s p 0) =
      ((read_md5 u.v 16 0 (cursor_at s (p + 18) 0) []).1,
        some
          { minimum_blocksize := spec_stream_bits s (8 * p) 16
            maximum_blocksize := spec_stream_bits s (8 * p + 16) 16
            minimum_frame_size := spec_stream_bits s (8 * p + 32) 24
            maximum_frame_size := spec_stream_bits s (8 * p + 56) 24
            sample_rate := spec_stream_bits s (8 * p + 80) 20
            channel_count := spec_stream_bits s (8 * p + 100) 3 + 1
            bits_per_sample := spec_stream_bits s (8 * p + 103) 5 + 1
            sample_count := ((spec_stream_bits s (8 * p + 108) 32 <<< 4) % 2 ^ 32) |||
              spec_stream_bits s (8 * p + 140) 4
            md5_checksum := (read_md5 u.v 16 0 (cursor_at s (p + 18) 0) []).2 }) := by
  unfold FlacDecoder_parse_STREAMINFO_metadata_block
  rw [next_bits_into_ok s p 0 16 (p + 2) 0 _ (by omega) (by omega) (Or.inl rfl) (by omega)
    (by omega) (by omega)]
  dsimp only
  rw [next_bits_into_ok s (p + 2) 0 16 (p + 4) 0 _ (by omega) (by omega) (Or.inl rfl) (by omega)
    (by omega) (by omega)]
  dsimp only
  rw [next_bits_into_ok s (p + 4) 0 24 (p + 7) 0 _ (by omega) (by omega) (Or.inl rfl) (by omega)
    (by omega) (by omega)]
  dsimp only
  rw [next_bits_into_ok s (p + 7) 0 24 (p + 10) 0 _ (by omega) (by omega) (Or.inl rfl)
    (by omega) (by omega) (by omega)]
  dsimp only
  rw [next_bits_into_ok s (p + 10) 0 20 (p + 12) 4 _ (by omega) (by omega) (Or.inl rfl)
    (by omega) (by omega) (by omega)]
  dsimp only
  have e : 8 * (p + 10) + 0 = 8 * p + 80 := by ring
  rw [e, if_neg hrate]
  rw [next_bits_into_ok s (p + 12) 4 8 (p + 13) 4 _ (by omega) (by omega) (Or.inr (by omega))
    (by omega) (by omega) (by omega)]
  dsimp only
  rw [next_bits_into_ok s (p + 13) 4 32 (p + 17) 4 _ (by omega) (by omega) (Or.inr (by omega))
    (by omega) (by omega) (by omega)]
  dsimp only
  rw [next_bits_into_ok s (p + 17) 4 4 (p + 18) 0 _ (by omega) (by omega) (Or.inr (by omega))
    (by omega) (by omega) (by omega)]
  dsimp only
  have e1 : 8 * (p + 2) + 0 = 8 * p + 16 := by ring
  have e2 : 8 * (p + 4) + 0 = 8 * p + 32 := by ring
  have e3 : 8 * (p + 7) + 0 = 8 * p + 56 := by ring
  have e4 : 8 * (p + 12) + 4 = 8 * p + 100 := by ring
  have e5 : 8 * (p + 13) + 4 = 8 * p + 108 := by ring
  have e6 : 8 * (p + 17) + 4 = 8 * p + 140 := by ring
  have e7 : 8 * p + 0 = 8 * p := by ring
  rw [e1, e2, e3, e4, e5, e6, e7]
  obtain ⟨c1, c2⟩ := channel_count_bps_split s (8 * p + 100)
  have e8 : 8 * p + 100 + 3 = 8 * p + 103 := by ring
  rw [e8] at c2
  rw [c1, c2, Nat.mod_eq_of_lt (spec_stream_bits_lt s _ 16),
    Nat.mod_eq_of_lt (spec_stream_bits_lt s _ 16)]

/-! ## The block loop -/

theorem skip_reads (d : FlacDecoder) (n : Nat) (h : (FlacDecoder_skip d n).2 = true) :
    reads 0 d (FlacDecoder_skip d n).1 := by
  unfold FlacDecoder_skip fseek_cur at h ⊢
  by_cases hneg : (d.pos : Int) + ((n : Int) - 1) < 0
  · simp [hneg] at h
  · simp only [hneg, ↓reduceIte, ne_eq, not_true_eq_false] at h ⊢
    obtain ⟨-, f1, f2⟩ := fread_reads { d with pos := ((d.pos : Int) + ((n : Int) - 1)).toNat }
    generalize fread_current_byte { d with pos := ((d.pos : Int) + ((n : Int) - 1)).toNat } = x
      at f1 f2 h
    obtain ⟨d1, c⟩ := x
    simp only at f1 f2 h ⊢
    by_cases hc : c = 1
    · obtain ⟨s1, p1, l1⟩ := f1 hc
      simp only at s1 p1 l1
      exact ⟨s1, by omega, fun _ => l1 (Or.inr Nat.one_pos)⟩
    · rw [f2 hc] at h
      simp at h

theorem parse_metadata_block_header_reads (d : FlacDecoder) :
    (FlacDecoder_parse_metadata_block_header d).2 ≠ none →
      reads 4 d (FlacDecoder_parse_metadata_block_header d).1 := by
  unfold FlacDecoder_parse_metadata_block_header
  obtain ⟨-, g1⟩ := next_bits_reads d 8
  generalize FlacDecoder_next_bits d 8 = x at g1 ⊢
  obtain ⟨d1, o1⟩ := x
  cases o1 with
  | none => intro h; exact absurd rfl h
  | some b =>
    dsimp only
    have r1 : reads 1 d d1 := g1 (by simp)
    obtain ⟨-, g2⟩ := next_bits_reads d1 24
    generalize FlacDecoder_next_bits d1 24 = y at g2 ⊢
    obtain ⟨d2, o2⟩ := y
    cases o2 with
    | none => intro h; exact absurd rfl h
    | some l =>
      dsimp only
      intro _
      have r2 : reads 3 d1 d2 := g2 (by simp)
      exact reads_trans r1 r2

theorem read_md5_reads (v : Nat → Nat) :
    ∀ (n i : Nat) (d : FlacDecoder) (md5 : List Nat), reads 0 d (read_md5 v n i d md5).1 := by
  intro n
  induction n with
  | zero => intro i d md5; exact reads_refl d
  | succ n ih =>
    intro i d md5
    rw [read_md5]
    have h1 := next_bits_into_reads d 8 (v i % 2 ^ 32)
    generalize next_bits_into d 8 (v i % 2 ^ 32) = x at h1 ⊢
    obtain ⟨d1, b⟩ := x
    exact reads_trans h1 (ih (i + 1) d1 _)

theorem parse_STREAMINFO_reads (u : StreamInfoLocals) (d : FlacDecoder) :
    reads 0 d (FlacDecoder_parse_STREAMINFO_metadata_block u d).1 := by
  unfold FlacDecoder_parse_STREAMINFO_metadata_block
  have h1 := next_bits_into_reads d 16 (u.minimum_blocksize % 2 ^ 32)
  generalize next_bits_into d 16 (u.minimum_blocksize % 2 ^ 32) = x1 at h1 ⊢
  obtain ⟨d1, v1⟩ := x1
  dsimp only at h1 ⊢
  have h2 := reads_trans h1 (next_bits_into_reads d1 16 (u.maximum_blocksize % 2 ^ 32))
  generalize next_bits_into d1 16 (u.maximum_blocksize % 2 ^ 32) = x2 at h2 ⊢
  obtain ⟨d2, v2⟩ := x2
  dsimp only at h2 ⊢
  have h3 := reads_trans h2 (next_bits_into_reads d2 24 (u.minimum_frame_size % 2 ^ 32))
  generalize next_bits_into d2 24 (u.minimum_frame_size % 2 ^ 32) = x3 at h3 ⊢
  obtain ⟨d3, v3⟩ := x3
  dsimp only at h3 ⊢
  have h4 := reads_trans h3 (next_bits_into_reads d3 24 (u.maximum_frame_size % 2 ^ 32))
  generalize next_bits_into d3 24 (u.maximum_frame_size % 2 ^ 32) = x4 at h4 ⊢
  obtain ⟨d4, v4⟩ := x4
  dsimp only at h4 ⊢
  have h5 := reads_trans h4 (next_bits_into_reads d4 20 (u.sample_rate % 2 ^ 32))
  generalize next_bits_into d4 20 (u.sample_rate % 2 ^ 32) = x5 at h5 ⊢
  obtain ⟨d5, v5⟩ := x5
  dsimp only at h5 ⊢
  split_ifs
  · exact h5
  · have h6 := reads_trans h5 (next_bits_into_reads d5 8 (u.channel_count_bps % 2 ^ 32))
    generalize next_bits_into d5 8 (u.channel_count_bps % 2 ^ 32) = x6 at h6 ⊢
    obtain ⟨d6, v6⟩ := x6
    dsimp only at h6 ⊢
    have h7 := reads_trans h6 (next_bits_into_reads d6 32 (u.sample_count_hi % 2 ^ 32))
    generalize next_bits_into d6 32 (u.sample_count_hi % 2 ^ 32) = x7 at h7 ⊢
    obtain ⟨d7, v7⟩ := x7
    dsimp only at h7 ⊢
    have h8 := reads_trans h7 (next_bits_into_reads d7 4 (u.sample_count_lo % 2 ^ 32))
    generalize next_bits_into d7 4 (u.sample_count_lo % 2 ^ 32) = x8 at h8 ⊢
    obtain ⟨d8, v8⟩ := x8
    dsimp only at h8 ⊢
    exact reads_trans h8 (read_md5_reads u.v 16 0 d8 [])

theorem iteration_next_reads (u : StreamInfoLocals) (st st2 : DecodeState)
    (h : lflac_decode_iteration u st = .next st2) :
    reads 4 st.decoder st2.decoder ∧ st2.block_count = st.block_count + 1 := by
  unfold lflac_decode_iteration at h
  have hh := parse_metadata_block_header_reads st.decoder
  generalize FlacDecoder_parse_metadata_block_header st.decoder = x at hh h
  obtain ⟨d1, o⟩ := x
  cases o with
  | none => simp at h
  | some hd =>
    have r1 : reads 4 st.decoder d1 := hh (by simp)
    dsimp only at h
    split_ifs at h with c1 c2 c3
    · have hs := parse_STREAMINFO_reads u d1
      generalize FlacDecoder_parse_STREAMINFO_metadata_block u d1 = y at hs h
      obtain ⟨d2, o2⟩ := y
      cases o2 with
      | none => simp at h
      | some si =>
        simp only [IterationResult.next.injEq] at h
        subst h
        exact ⟨reads_trans r1 hs, rfl⟩
    · have hs := skip_reads d1 hd.length
      generalize FlacDecoder_skip d1 hd.length = y at hs h
      obtain ⟨d2, b⟩ := y
      cases b with
      | false => simp at h
      | true =>
        simp only [IterationResult.next.injEq] at h
        subst h
        exact ⟨reads_trans r1 (hs rfl), rfl⟩

theorem init_nonempty (d : FlacDecoder) (s : List Nat) (h : 0 < s.length) :
    (FlacDecoder_init d s).1 = cursor_at s 0 0 := by
  simp [FlacDecoder_init, fread_current_byte_eq, h, cursor_at]

theorem start_true (u : Indeterminate) (s : List Nat) (d : FlacDecoder)
    (h : lflac_decode_start u s = (d, true)) :
    4 < s.length ∧ d = cursor_at s 4 0 ∧ spec_stream_bits s 0 32 = 0x664C6143 := by
  by_cases h0 : 0 < s.length
  · unfold lflac_decode_start at h
    have hi := init_nonempty
      { stream := [], pos := 0, bit_index := 0, current_byte := u.current_byte % 256 } s h0
    dsimp only at h
    rw [hi] at h
    unfold FlacDecoder_validate_signature at h
    by_cases h4 : 4 < s.length
    · rw [next_bits_ok s 0 0 32 4 0 (by omega) (by omega) (Or.inl rfl) (by omega) (by omega) h4]
        at h
      dsimp only at h
      simp only [Prod.mk.injEq] at h
      obtain ⟨hd, hb⟩ := h
      refine ⟨h4, hd.symm, ?_⟩
      have hlt := spec_stream_bits_lt s 0 32
      generalize spec_stream_bits s 0 32 = v at hb hlt
      have hm : (0xFF : Nat) = 2 ^ 8 - 1 := by norm_num
      simp only [hm, Nat.and_pow_two_sub_one_eq_mod, Nat.shiftRight_eq_div_pow, Bool.and_eq_true,
        beq_iff_eq] at hb
      norm_num at hb hlt ⊢
      omega
    · have hf := next_bits_eof s 0 0 32 (by omega) (Or.inl rfl) h0 (by omega)
      generalize FlacDecoder_next_bits (cursor_at s 0 0) 32 = y at hf h
      obtain ⟨d1, o⟩ := y
      dsimp only at hf
      subst hf
      simp at h
  · have hs : s = [] := List.length_eq_zero.mp (by omega)
    subst hs
    have hf : (lflac_decode_start u []).2 = false := rfl
    rw [h] at hf
    simp at hf

theorem state_at_spec (u : Indeterminate) (s : List Nat) :
    ∀ (n : Nat) (st : DecodeState), lflac_decode_state_at u s n = some st →
      st.decoder.stream = s ∧ 4 * n + 5 ≤ st.decoder.pos ∧ st.decoder.pos ≤ s.length ∧
        st.block_count = n ∧
        lflac_decode u s = lflac_decode_loop u.locals (s.length + 1 - n) st := by
  intro n
  induction n with
  | zero =>
    intro st h
    unfold lflac_decode_state_at at h
    unfold lflac_decode
    have hs := start_true u s
    generalize lflac_decode_start u s = x at h hs
    obtain ⟨d, b⟩ := x
    cases b with
    | false => simp at h
    | true =>
      obtain ⟨h4, hd, -⟩ := hs d rfl
      simp only [Option.some.injEq] at h
      subst h
      subst hd
      exact ⟨rfl, by simp [cursor_at], by simp only [cursor_at]; omega, rfl, rfl⟩
  | succ n ih =>
    intro st h
    rw [lflac_decode_state_at] at h
    cases hprev : lflac_decode_state_at u s n with
    | none => simp [hprev] at h
    | some st0 =>
      obtain ⟨i1, i2, i3, i4, i5⟩ := ih st0 hprev
      simp only [hprev] at h
      by_cases hl : st0.last_metadata_block = true
      · simp [hl] at h
      · simp only [hl, Bool.false_eq_true, ↓reduceIte] at h
        cases hit : lflac_decode_iteration (u.locals st0.block_count) st0 with
        | returned site d => simp [hit] at h
        | next st1 =>
          simp only [hit, Option.some.injEq] at h
          subst h
          obtain ⟨⟨r1, r2, r3⟩, r4⟩ := iteration_next_reads _ _ _ hit
          rw [i1] at r1 r3
          refine ⟨r1, by omega, r3 (Or.inr (by omega)), by omega, ?_⟩
          have hr3 := r3 (Or.inr (by omega))
          have e : s.length + 1 - n = (s.length + 1 - (n + 1)) + 1 := by omega
          rw [i5, e, lflac_decode_loop]
          simp only [hl, Bool.false_eq_true, ↓reduceIte, hit]

theorem decode_at_reached (u : Indeterminate) (s : List Nat) (n : Nat) (st : DecodeState)
    (h : lflac_decode_state_at u s n = some st) :
    lflac_decode u s =
      if st.last_metadata_block then some (.returned_true st)
      else
        match lflac_decode_iteration (u.locals st.block_count) st with
        | .returned site decoder => some (.returned_false site decoder)
        | .next st => lflac_decode_loop u.locals (s.length - n) st := by
  obtain ⟨-, i2, i3, -, i5⟩ := state_at_spec u s n st h
  have e : s.length + 1 - n = (s.length - n) + 1 := by omega
  rw [i5, e, lflac_decode_loop]

/-! ## Streams given as a prefix followed by a body -/

theorem spec_stream_bit_append_right (a b : List Nat) (i : Nat) :
    spec_stream_bit (a ++ b) (8 * a.length + i) = spec_stream_bit b i := by
  unfold spec_stream_bit
  have h1 : (8 * a.length + i) / 8 = a.length + i / 8 := by omega
  have h2 : (8 * a.length + i) % 8 = i % 8 := by omega
  rw [h1, h2, List.getElem?_append_right (by omega)]
  simp

theorem spec_stream_bits_append_right (a b : List Nat) (i n : Nat) :
    spec_stream_bits (a ++ b) (8 * a.length + i) n = spec_stream_bits b i n := by
  induction n with
  | zero => rfl
  | succ n ih =>
    rw [spec_stream_bits, spec_stream_bits, ih, Nat.add_assoc, spec_stream_bit_append_right]

theorem spec_stream_bit_append_left (a b : List Nat) (i : Nat) (h : i < 8 * a.length) :
    spec_stream_bit (a ++ b) i = spec_stream_bit a i := by
  unfold spec_stream_bit
  rw [List.getElem?_append_left (by omega)]

theorem spec_stream_bits_append_left (a b : List Nat) (i n : Nat) (h : i + n ≤ 8 * a.length) :
    spec_stream_bits (a ++ b) i n = spec_stream_bits a i n := by
  induction n with
  | zero => rfl
  | succ n ih =>
    rw [spec_stream_bits, spec_stream_bits, ih (by omega),
      spec_stream_bit_append_left a b (i + n) (by omega)]

theorem start_ok (u : Indeterminate) (s : List Nat) (h4 : 4 < s.length)
    (hsig : spec_stream_bits s 0 32 = 0x664C6143) :
    lflac_decode_start u s = (cursor_at s 4 0, true) := by
  unfold lflac_decode_start
  have hi := init_nonempty
    { stream := [], pos := 0, bit_index := 0, current_byte := u.current_byte % 256 } s (by omega)
  dsimp only
  rw [hi]
  unfold FlacDecoder_validate_signature
  rw [next_bits_ok s 0 0 32 4 0 (by omega) (by omega) (Or.inl rfl) (by omega) (by omega) h4]
  dsimp only
  rw [show 8 * 0 + 0 = 0 from rfl, hsig]
  rfl

theorem iteration_streaminfo_ok (u : StreamInfoLocals) (st : DecodeState) (s : List Nat)
    (p : Nat) (hd : st.decoder = cursor_at s p 0) (hlen : p + 22 < s.length)
    (htype : s[p]?.getD 0 % 256 % 128 = 0)
    (hrate : spec_stream_bits s (8 * (p + 4) + 80) 20 ≠ 0) :
    lflac_decode_iteration u st =
      .next
        { decoder := (read_md5 u.v 16 0 (cursor_at s (p + 4 + 18) 0) []).1
          stream_info := (FlacDecoder_parse_STREAMINFO_metadata_block u (cursor_at s (p + 4) 0)).2
          last_metadata_block := decide (128 ≤ s[p]?.getD 0 % 256)
          block_count := st.block_count + 1 } := by
  unfold lflac_decode_iteration
  rw [hd, parse_metadata_block_header_ok s p (by omega)]
  dsimp only
  rw [if_neg (by simp [htype]), if_pos htype,
    parse_STREAMINFO_ok u s (p + 4) (by omega) hrate]

/-! ## The claims about `lflac_decode` and its parts -/

theorem single_block_file_length (b0 : Nat) (body : List Nat) :
    (single_block_file b0 body).length = 8 + body.length := by
  simp [single_block_file, signature]
  omega

theorem single_block_file_signature (b0 : Nat) (body : List Nat) :
    spec_stream_bits (single_block_file b0 body) 0 32 = 0x664C6143 := by
  unfold single_block_file
  rw [List.append_assoc, spec_stream_bits_append_left _ _ 0 32 (by simp [signature])]
  decide

theorem single_block_file_body_bits (b0 : Nat) (body : List Nat) (i n : Nat) :
    spec_stream_bits (single_block_file b0 body) (64 + i) n = spec_stream_bits body i n := by
  unfold single_block_file
  have e : 64 + i = 8 * (signature ++ [b0, 0, 0, 34]).length + i := by simp [signature]
  rw [e, spec_stream_bits_append_right]

theorem single_block_file_first (b0 : Nat) (body : List Nat) :
    (single_block_file b0 body)[4]?.getD 0 = b0 := by
  simp [single_block_file, signature]

theorem decode_single_block_eq (u : Indeterminate) (body : List Nat) (hlen : body.length = 34)
    (hrate : spec_stream_bits body 80 20 ≠ 0) :
    lflac_decode u (single_block_file 0x80 body) =
      some (.returned_true
        { decoder :=
            (read_md5 (u.locals 0).v 16 0 (cursor_at (single_block_file 0x80 body) 26 0) []).1
          stream_info := some
            { minimum_blocksize := spec_stream_bits body 0 16
              maximum_blocksize := spec_stream_bits body 16 16
              minimum_frame_size := spec_stream_bits body 32 24
              maximum_frame_size := spec_stream_bits body 56 24
              sample_rate := spec_stream_bits body 80 20
              channel_count := spec_stream_bits body 100 3 + 1
              bits_per_sample := spec_stream_bits body 103 5 + 1
              sample_count := ((spec_stream_bits body 108 32 <<< 4) % 2 ^ 32) |||
                spec_stream_bits body 140 4
              md5_checksum :=
                (read_md5 (u.locals 0).v 16 0
                  (cursor_at (single_block_file 0x80 body) 26 0) []).2 }
          last_metadata_block := true
          block_count := 1 }) := by
  have hl : (single_block_file 0x80 body).length = 42 := by
    rw [single_block_file_length, hlen]
  have hb : ∀ i n, spec_stream_bits (single_block_file 0x80 body) (8 * (4 + 4) + i) n
      = spec_stream_bits body i n :=
    fun i n => single_block_file_body_bits 0x80 body i n
  have hb0 : ∀ n, spec_stream_bits (single_block_file 0x80 body) (8 * (4 + 4)) n
      = spec_stream_bits body 0 n :=
    fun n => single_block_file_body_bits 0x80 body 0 n
  have hfirst : (single_block_file 0x80 body)[4]?.getD 0 = 0x80 :=
    single_block_file_first 0x80 body
  have hsig := single_block_file_signature 0x80 body
  generalize single_block_file 0x80 body = s at hl hb hb0 hfirst hsig ⊢
  have hrate2 : spec_stream_bits s (8 * (4 + 4) + 80) 20 ≠ 0 := by rw [hb]; exact hrate
  have hstart := start_ok u s (by omega) hsig
  have hit := iteration_streaminfo_ok (u.locals 0)
    { decoder := cursor_at s 4 0, stream_info := none, last_metadata_block := false,
      block_count := 0 } s 4 rfl (by omega) (by rw [hfirst]) hrate2
  rw [parse_STREAMINFO_ok (u.locals 0) s (4 + 4) (by omega) hrate2, hfirst] at hit
  rw [lflac_decode, hstart]
  dsimp only
  rw [hl, lflac_decode_loop]
  simp only [Bool.false_eq_true, ↓reduceIte, hit]
  rw [lflac_decode_loop]
  simp only [show decide (128 ≤ 128 % 256) = true from by decide, ↓reduceIte, hb, hb0]

/-- C2. For every input made of the signature, one block header with type 0, last set and
length 34, and a 34-byte body whose 20-bit sample rate field is nonzero, `lflac_decode` returns
true, and the `StreamInfo` it has stored holds the 16, 16, 24, 24 and 20-bit wire fields in
that order, the 3-bit field plus one as channel count and the 5-bit field plus one as bits per
sample. -/
theorem decode_single_streaminfo (u : Indeterminate) (body : List Nat)
    (hlen : body.length = 34) (hrate : spec_stream_bits body 80 20 ≠ 0) :
    ∃ st si, lflac_decode u (single_block_file 0x80 body) = some (.returned_true st) ∧
      st.stream_info = some si ∧
      si.minimum_blocksize = spec_stream_bits body 0 16 ∧
      si.maximum_blocksize = spec_stream_bits body 16 16 ∧
      si.minimum_frame_size = spec_stream_bits body 32 24 ∧
      si.maximum_frame_size = spec_stream_bits body 56 24 ∧
      si.sample_rate = spec_stream_bits body 80 20 ∧
      si.channel_count = spec_stream_bits body 100 3 + 1 ∧
      si.bits_per_sample = spec_stream_bits body 103 5 + 1 :=
  ⟨_, _, decode_single_block_eq u body hlen hrate, rfl, rfl, rfl, rfl, rfl, rfl, rfl, rfl⟩

/-- C2, witness: the scenario file of the specification decodes to a sample rate of 44100, 2
channels and 16 bits per sample. -/
theorem decode_single_streaminfo_witness :
    ∃ st si, lflac_decode zero_memory (single_block_file 0x80 scenario_body)
        = some (.returned_true st) ∧
      st.stream_info = some si ∧
      si.sample_rate = 44100 ∧ si.channel_count = 2 ∧ si.bits_per_sample = 16 := by
  obtain ⟨st, si, h1, h2, -, -, -, -, h7, h8, h9⟩ :=
    decode_single_streaminfo zero_memory scenario_body (by decide) (by decide)
  exact ⟨st, si, h1, h2, h7.trans (by decide), h8.trans (by decide), h9.trans (by decide)⟩

/-- C3. For every stream of bytes whose first four bytes are not `fLaC` (shorter streams
included), `lflac_decode` returns false from the signature check and its block loop is never
entered; hence whenever it returns true the stream begins with `fLaC`. -/
theorem decode_rejects_other_signature (u : Indeterminate) (s : List Nat) (hv : valid_stream s)
    (hsig : s.take 4 ≠ signature) :
    (∃ d, lflac_decode u s = some (.returned_false .invalid_signature d)) ∧
      lflac_decode_state_at u s 0 = none := by
  have hs := start_true u s
  have key : ∀ d, lflac_decode_start u s ≠ (d, true) := by
    intro d hd
    obtain ⟨h4, -, hbits⟩ := hs d hd
    apply hsig
    rcases s with _ | ⟨a, _ | ⟨b, _ | ⟨c, _ | ⟨e, rest⟩⟩⟩⟩ <;>
      simp only [List.length_nil, List.length_cons] at h4 <;> try omega
    have ha : a < 256 := hv a (by simp)
    have hb : b < 256 := hv b (by simp)
    have hc : c < 256 := hv c (by simp)
    have he : e < 256 := hv e (by simp)
    have e32 : (32 : Nat) = 8 + 24 := rfl
    have h0 : spec_stream_bits (a :: b :: c :: e :: rest) (8 * 0) 8 = a % 256 := by
      rw [spec_stream_bits_byte]; simp
    have h1 : spec_stream_bits (a :: b :: c :: e :: rest) (8 * 1) 24
        = (b % 256) * 65536 + (c % 256) * 256 + e % 256 := by
      rw [spec_stream_bits_three_bytes]; simp
    rw [e32, spec_stream_bits_add, show (0 : Nat) = 8 * 0 from rfl, h0,
      show 8 * 0 + 8 = 8 * 1 from rfl, h1] at hbits
    simp only [List.take_succ_cons, List.take_zero, signature]
    norm_num at hbits
    have : a = 0x66 ∧ b = 0x4C ∧ c = 0x61 ∧ e = 0x43 := by omega
    obtain ⟨rfl, rfl, rfl, rfl⟩ := this
    rfl
  unfold lflac_decode lflac_decode_state_at
  generalize lflac_decode_start u s = x at key
  obtain ⟨d, b⟩ := x
  cases b with
  | true => exact absurd rfl (key d)
  | false => exact ⟨⟨d, rfl⟩, rfl⟩

/-- C3, witness: a stream that starts with `fLaD` is rejected by the signature check. -/
theorem decode_rejects_other_signature_witness :
    (∃ d, lflac_decode zero_memory [0x66, 0x4C, 0x61, 0x44, 0x80, 0, 0, 34, 0]
        = some (.returned_false .invalid_signature d)) ∧
      lflac_decode_state_at zero_memory [0x66, 0x4C, 0x61, 0x44, 0x80, 0, 0, 34, 0] 0 = none :=
  decode_rejects_other_signature zero_memory [0x66, 0x4C, 0x61, 0x44, 0x80, 0, 0, 34, 0]
    (by decide) (by decide)

theorem iteration_header_ok (st : DecodeState) (s : List Nat) (p : Nat)
    (hd : st.decoder = cursor_at s p 0) (hlen : p + 4 < s.length) :
    FlacDecoder_parse_metadata_block_header st.decoder =
      (cursor_at s (p + 4) 0,
        some { length := spec_stream_bits s (8 * (p + 1)) 24
               block_type := (s[p]?.getD 0 % 256) % 128
               last := decide (128 ≤ s[p]?.getD 0 % 256) }) := by
  rw [hd, parse_metadata_block_header_ok s p hlen]

/-- C4, the claim as stated fails: after a valid signature, a complete header of a padding
block (type 1, last, length 0) that ends the stream is not reported as a missing stream info;
the read of the header itself fails, on the fetch of the byte after it. -/
theorem header_at_end_of_stream_fails_header_read :
    lflac_decode zero_memory (signature ++ [0x81, 0, 0, 0]) =
      some (.returned_false .header_read_failed (cursor_at (signature ++ [0x81, 0, 0, 0]) 7 0)) := by
  decide

/-- C4, amended. For every input with the signature `fLaC`, a first block header whose type is
not 0, and at least one byte after that header, `lflac_decode` returns false at the diagnostic
"StreamInfo is not the first metadata block", with the cursor still on the first byte after the
header: no body byte has been decoded or skipped. -/
theorem first_block_not_streaminfo (u : Indeterminate) (b0 l1 l2 l3 : Nat) (rest : List Nat)
    (htype : b0 % 128 ≠ 0) (hrest : rest ≠ []) :
    lflac_decode u (signature ++ [b0, l1, l2, l3] ++ rest) =
      some (.returned_false .streaminfo_not_first
        (cursor_at (signature ++ [b0, l1, l2, l3] ++ rest) 8 0)) := by
  have hl : 8 < (signature ++ [b0, l1, l2, l3] ++ rest).length := by
    have : 0 < rest.length := List.length_pos.mpr hrest
    simp [signature]
    omega
  have hsig : spec_stream_bits (signature ++ [b0, l1, l2, l3] ++ rest) 0 32 = 0x664C6143 := by
    rw [List.append_assoc, spec_stream_bits_append_left _ _ 0 32 (by simp [signature])]
    decide
  have hfirst : (signature ++ [b0, l1, l2, l3] ++ rest)[4]?.getD 0 = b0 := by
    simp [signature]
  generalize signature ++ [b0, l1, l2, l3] ++ rest = s at hl hsig hfirst ⊢
  rw [lflac_decode, start_ok u s (by omega) hsig]
  dsimp only
  rw [lflac_decode_loop]
  simp only [Bool.false_eq_true, ↓reduceIte]
  rw [lflac_decode_iteration, iteration_header_ok _ s 4 rfl (by omega), hfirst]
  dsimp only
  rw [if_pos ⟨rfl, by omega⟩]

/-- C4, witness: a padding header as first block, followed by one byte. -/
theorem first_block_not_streaminfo_witness :
    lflac_decode zero_memory (signature ++ [0x81, 0, 0, 0] ++ [0xFF]) =
      some (.returned_false .streaminfo_not_first
        (cursor_at (signature ++ [0x81, 0, 0, 0] ++ [0xFF]) 8 0)) :=
  first_block_not_streaminfo zero_memory 0x81 0 0 0 [0xFF] (by decide) (by decide)

/-- C5, the claim as stated fails, in two ways. The scenario file with its block type set to 5
is rejected at the diagnostic "StreamInfo is not the first metadata block", before the switch
that reports unsupported block types is reached. And when the 4 header bytes of a second block
of type 5 end the stream, that block is reached (the loop condition is evaluated a second time
and holds, the type byte `85` is the current byte) but the read of its header fails on the
fetch of the byte after it, and `lflac_decode` returns there. -/
theorem scenario_with_type_5_is_not_unsupported :
    lflac_decode zero_memory (single_block_file 0x85 scenario_body) =
        some (.returned_false .streaminfo_not_first
          (cursor_at (single_block_file 0x85 scenario_body) 8 0)) ∧
      lflac_decode_state_at zero_memory two_block_file_short 1 =
        some { decoder := cursor_at two_block_file_short 42 0
               stream_info := some scenario_stream_info
               last_metadata_block := false
               block_count := 1 } ∧
      (cursor_at two_block_file_short 42 0).current_byte = 0x85 ∧
      lflac_decode zero_memory two_block_file_short =
        some (.returned_false .header_read_failed (cursor_at two_block_file_short 45 0)) := by
  decide

/-- C5, amended. Whenever `lflac_decode` reaches a metadata block other than the first (its loop
condition is evaluated for the `n`-th time with `n > 0` and holds), the read of the header of
that block succeeds and the block type is none of 0, 1 and 4, it returns false at the diagnostic
"Unsupported block type". The header read does succeed when the cursor is byte-aligned on the
first header byte and at least one byte follows the 4 header bytes. -/
theorem later_block_unsupported_type (u : Indeterminate) (s : List Nat) (n : Nat)
    (st : DecodeState) (hreach : lflac_decode_state_at u s n = some st) (hn : 0 < n)
    (hlast : st.last_metadata_block = false) :
    (∀ (d : FlacDecoder) (h : MetadataBlockHeader),
        FlacDecoder_parse_metadata_block_header st.decoder = (d, some h) →
        h.block_type ≠ 0 ∧ h.block_type ≠ 1 ∧ h.block_type ≠ 4 →
        lflac_decode u s = some (.returned_false .unsupported_block_type d)) ∧
      ∀ p, st.decoder = cursor_at s p 0 → p + 4 < s.length →
        s[p]?.getD 0 % 256 % 128 ≠ 0 ∧ s[p]?.getD 0 % 256 % 128 ≠ 1 ∧
          s[p]?.getD 0 % 256 % 128 ≠ 4 →
        lflac_decode u s =
          some (.returned_false .unsupported_block_type (cursor_at s (p + 4) 0)) := by
  have key : ∀ (d : FlacDecoder) (h : MetadataBlockHeader),
      FlacDecoder_parse_metadata_block_header st.decoder = (d, some h) →
      h.block_type ≠ 0 ∧ h.block_type ≠ 1 ∧ h.block_type ≠ 4 →
      lflac_decode u s = some (.returned_false .unsupported_block_type d) := by
    intro d h hparse htype
    obtain ⟨-, -, -, hbc, -⟩ := state_at_spec u s n st hreach
    rw [decode_at_reached u s n st hreach, hlast]
    simp only [Bool.false_eq_true, ↓reduceIte]
    rw [lflac_decode_iteration, hparse]
    dsimp only
    rw [if_neg (by omega), if_neg htype.1, if_neg (by omega)]
  refine ⟨key, ?_⟩
  intro p hd hlen htype
  exact key _ _ (iteration_header_ok st s p hd hlen) htype

/-- C5, witness: a stream-parameters block followed by a header of type 5 and one more byte. -/
theorem later_block_unsupported_type_witness :
    lflac_decode zero_memory two_block_file =
      some (.returned_false .unsupported_block_type (cursor_at two_block_file (42 + 4) 0)) :=
  (later_block_unsupported_type zero_memory two_block_file 1
    { decoder := cursor_at two_block_file 42 0
      stream_info := some scenario_stream_info
      last_metadata_block := false
      block_count := 1 }
    (by decide) (by decide) (by decide)).2 42 (by decide) (by decide) (by decide)

/-- C6. For every stream-parameters block whose 34 body bytes are in the stream and whose 20-bit
sample rate field is 0, whatever the other fields and the uninitialised memory,
`FlacDecoder_parse_STREAMINFO_metadata_block` returns false (with the cursor just after the
rate field), and a call of `lflac_decode` that reaches the block returns false at the
diagnostic "Couldn't parse block". -/
theorem zero_sample_rate_fails (u : Indeterminate) (s : List Nat) (p : Nat)
    (hbody : p + 33 < s.length) (hrate : spec_stream_bits s (8 * p + 80) 20 = 0) :
    (∀ v, FlacDecoder_parse_STREAMINFO_metadata_block v (cursor_at s p 0)
        = (cursor_at s (p + 12) 4, none)) ∧
      ∀ (n : Nat) (st : DecodeState) (h : MetadataBlockHeader),
        lflac_decode_state_at u s n = some st → st.last_metadata_block = false →
        FlacDecoder_parse_metadata_block_header st.decoder = (cursor_at s p 0, some h) →
        h.block_type = 0 →
        lflac_decode u s = some (.returned_false .block_not_parsed (cursor_at s (p + 12) 4)) := by
  have hparse := fun v => parse_STREAMINFO_zero_rate v s p (by omega) hrate
  refine ⟨hparse, ?_⟩
  intro n st h hreach hlast hheader htype
  rw [decode_at_reached u s n st hreach, hlast]
  simp only [Bool.false_eq_true, ↓reduceIte]
  rw [lflac_decode_iteration, hheader]
  dsimp only
  rw [if_neg (by simp [htype]), if_pos htype, hparse]

/-- C6, witness: the scenario file with the sample rate field set to 0. -/
theorem zero_sample_rate_fails_witness :
    lflac_decode zero_memory (single_block_file 0x80 zero_rate_body) =
      some (.returned_false .block_not_parsed
        (cursor_at (single_block_file 0x80 zero_rate_body) (8 + 12) 4)) :=
  (zero_sample_rate_fails zero_memory (single_block_file 0x80 zero_rate_body) 8
      (by decide) (by decide)).2 0
    { decoder := cursor_at (single_block_file 0x80 zero_rate_body) 4 0, stream_info := none,
      last_metadata_block := false, block_count := 0 }
    { length := 34, block_type := 0, last := true } (by decide) (by decide) (by decide)
    (by decide)

/-- C7, the claim as stated fails: a block whose 5-bit bits-per-sample field is 0 is decoded
successfully, to 1 bit per sample, which is below 4. -/
theorem bits_per_sample_can_be_one :
    (decoded_stream_info (lflac_decode zero_memory (single_block_file 0x80 low_depth_body))).map
        StreamInfo.bits_per_sample = some 1 ∧
      spec_stream_bits low_depth_body 103 5 = 0 := by
  decide

/-- C7, amended. For every stream-parameters block, with its 34 body bytes in the stream, that
the decoder decodes successfully, the resulting bits per sample equals the 5-bit wire value
plus one and lies in the range 1 to 32. -/
theorem bits_per_sample_range (u : StreamInfoLocals) (s : List Nat) (p : Nat)
    (d : FlacDecoder) (si : StreamInfo) (hbody : p + 33 < s.length)
    (h : FlacDecoder_parse_STREAMINFO_metadata_block u (cursor_at s p 0) = (d, some si)) :
    si.bits_per_sample = spec_stream_bits s (8 * p + 103) 5 + 1 ∧
      1 ≤ si.bits_per_sample ∧ si.bits_per_sample ≤ 32 := by
  by_cases hrate : spec_stream_bits s (8 * p + 80) 20 = 0
  · rw [parse_STREAMINFO_zero_rate u s p (by omega) hrate] at h
    simp at h
  · rw [parse_STREAMINFO_ok u s p (by omega) hrate] at h
    simp only [Prod.mk.injEq, Option.some.injEq] at h
    obtain ⟨-, hsi⟩ := h
    subst hsi
    have hlt := spec_stream_bits_lt s (8 * p + 103) 5
    norm_num at hlt
    exact ⟨rfl, by simp, by simp only; omega⟩

/-- C7, witness: the scenario body, followed by one byte, decodes to 16 bits per sample. -/
theorem bits_per_sample_range_witness :
    scenario_stream_info.bits_per_sample = spec_stream_bits (scenario_body ++ [0]) (8 * 0 + 103) 5 + 1 ∧
      1 ≤ scenario_stream_info.bits_per_sample ∧ scenario_stream_info.bits_per_sample ≤ 32 :=
  bits_per_sample_range zero_locals (scenario_body ++ [0]) 0
    (cursor_at (scenario_body ++ [0]) 34 0)
    scenario_stream_info (by decide) (by decide)

/-- C8, evaluated at the failing input: the body whose 36-bit sample count field holds `2 ^ 32`
is decoded to a sample count of 0, because the first 32 bits are shifted left by 4 in 32-bit
arithmetic before they are widened. -/
theorem sample_count_loses_top_bits :
    (decoded_stream_info (lflac_decode zero_memory (single_block_file 0x80 large_count_body))).map
        StreamInfo.sample_count = some 0 ∧
      spec_stream_bits large_count_body 108 36 = 2 ^ 32 := by
  decide

/-- C9, evaluated at the failing input: when the block ends the input, the read of the last
checksum byte returns false on its fetch of the next byte and stores nothing, and the status is
ignored; `md5_checksum[15]` is whatever the uninitialised local `v` held, not the byte 16 of the
stream. -/
theorem last_md5_byte_is_indeterminate (u : Indeterminate) :
    (decoded_stream_info (lflac_decode u (single_block_file 0x80 numbered_md5_body))).map
        StreamInfo.md5_checksum =
      some [1, 2, 3, 4, 5, 6, 7, 8, 9, 10, 11, 12, 13, 14, 15,
        (((u.locals 0).v 15 % 2 ^ 32) &&& 0xFF) % 256] := by
  rw [decode_single_block_eq u numbered_md5_body (by decide) (by decide)]
  rfl

/-- C10. For every byte-aligned cursor on a byte `b0` of a stream of bytes, whenever
`FlacDecoder_parse_metadata_block_header` returns true, with `b1 b2 b3` the three bytes after
`b0`: `last` is `b0 ≥ 128`, `block_type` is `b0 mod 128`, `length` is
`b1 * 65536 + b2 * 256 + b3`, and the cursor is left byte-aligned on the byte after `b3`, the
first body byte, which exists. -/
theorem header_fields (s : List Nat) (p : Nat) (d : FlacDecoder) (h : MetadataBlockHeader)
    (hv : valid_stream s) (hp : p < s.length)
    (hparse : FlacDecoder_parse_metadata_block_header (cursor_at s p 0) = (d, some h)) :
    h.last = decide (128 ≤ s[p]?.getD 0) ∧
      h.block_type = s[p]?.getD 0 % 128 ∧
      h.length = s[p + 1]?.getD 0 * 65536 + s[p + 2]?.getD 0 * 256 + s[p + 3]?.getD 0 ∧
      p + 4 < s.length ∧ d = cursor_at s (p + 4) 0 := by
  by_cases hlen : p + 4 < s.length
  · rw [parse_metadata_block_header_ok s p hlen] at hparse
    simp only [Prod.mk.injEq, Option.some.injEq] at hparse
    obtain ⟨hd, hh⟩ := hparse
    subst hh
    have e : p + 1 + 1 = p + 2 := rfl
    have e2 : p + 1 + 2 = p + 3 := rfl
    simp only [spec_stream_bits_three_bytes, valid_stream_getD s hv, e, e2]
    exact ⟨trivial, trivial, trivial, hlen, hd.symm⟩
  · have hf := parse_metadata_block_header_eof s p hp (by omega)
    rw [hparse] at hf
    simp at hf

/-- C10, witness: the header `80 00 00 22` of the scenario file. -/
theorem header_fields_witness :
    true = decide (128 ≤ (single_block_file 0x80 scenario_body)[4]?.getD 0) ∧
      0 = (single_block_file 0x80 scenario_body)[4]?.getD 0 % 128 ∧
      34 = (single_block_file 0x80 scenario_body)[4 + 1]?.getD 0 * 65536 +
        (single_block_file 0x80 scenario_body)[4 + 2]?.getD 0 * 256 +
        (single_block_file 0x80 scenario_body)[4 + 3]?.getD 0 ∧
      4 + 4 < (single_block_file 0x80 scenario_body).length ∧
      cursor_at (single_block_file 0x80 scenario_body) 8 0 =
        cursor_at (single_block_file 0x80 scenario_body) (4 + 4) 0 :=
  header_fields (single_block_file 0x80 scenario_body) 4
    (cursor_at (single_block_file 0x80 scenario_body) 8 0)
    { length := 34, block_type := 0, last := true } (by decide) (by decide) (by decide)

/-! ## Skipping a block body -/

theorem skip_ok (s : List Nat) (p off n : Nat) (h : p + n < s.length) :
    FlacDecoder_skip (cursor_at s p off) n = (cursor_at s (p + n) off, true) := by
  unfold FlacDecoder_skip fseek_cur
  have hneg : ¬ (((cursor_at s p off).pos : Int) + ((n : Int) - 1) < 0) := by
    simp only [cursor_at]; omega
  rw [if_neg hneg]
  dsimp only
  rw [if_neg (by simp), fread_current_byte_eq]
  have hpos : (((cursor_at s p off).pos : Int) + ((n : Int) - 1)).toNat = p + n := by
    simp only [cursor_at]; omega
  simp only [hpos]
  rw [if_pos (by simpa [cursor_at] using h)]
  simp [cursor_at]

theorem skip_eof (s : List Nat) (p off n : Nat) (h : s.length ≤ p + n) :
    (FlacDecoder_skip (cursor_at s p off) n).2 = false := by
  unfold FlacDecoder_skip fseek_cur
  have hneg : ¬ (((cursor_at s p off).pos : Int) + ((n : Int) - 1) < 0) := by
    simp only [cursor_at]; omega
  rw [if_neg hneg]
  dsimp only
  rw [if_neg (by simp), fread_current_byte_eq]
  have hpos : (((cursor_at s p off).pos : Int) + ((n : Int) - 1)).toNat = p + n := by
    simp only [cursor_at]; omega
  simp only [hpos]
  rw [if_neg (by simpa [cursor_at] using h)]
  rfl

/-- C11. Whenever `FlacDecoder_skip(n)`, called with the byte-aligned cursor on the byte at index
`p` of a stream of bytes (the first body byte of a padding or vorbis-comment block of declared
length `n`), returns true, the byte at index `p + n` exists and is the current byte, and the bit
index is 0: the reader is byte-aligned on the byte just after the body. -/
theorem skip_lands_after_body (s : List Nat) (p n : Nat) (d : FlacDecoder)
    (hv : valid_stream s) (h : FlacDecoder_skip (cursor_at s p 0) n = (d, true)) :
    p + n < s.length ∧ d = cursor_at s (p + n) 0 ∧ d.current_byte = s[p + n]?.getD 0 ∧
      d.bit_index = 0 ∧ d.pos = p + n + 1 := by
  by_cases hlen : p + n < s.length
  · rw [skip_ok s p 0 n hlen] at h
    simp only [Prod.mk.injEq, and_true] at h
    subst h
    exact ⟨hlen, rfl, valid_stream_getD s hv (p + n), rfl, rfl⟩
  · have hf := skip_eof s p 0 n (by omega)
    rw [h] at hf
    simp at hf

/-- C11, witness: skipping the 10 bytes that follow the byte at index 1. -/
theorem skip_lands_after_body_witness :
    1 + 10 < [9, 1, 2, 3, 4, 5, 6, 7, 8, 9, 10, 0x81, 0].length ∧
      cursor_at [9, 1, 2, 3, 4, 5, 6, 7, 8, 9, 10, 0x81, 0] 11 0
        = cursor_at [9, 1, 2, 3, 4, 5, 6, 7, 8, 9, 10, 0x81, 0] (1 + 10) 0 ∧
      (cursor_at [9, 1, 2, 3, 4, 5, 6, 7, 8, 9, 10, 0x81, 0] 11 0).current_byte
        = [9, 1, 2, 3, 4, 5, 6, 7, 8, 9, 10, 0x81, 0][1 + 10]?.getD 0 ∧
      (cursor_at [9, 1, 2, 3, 4, 5, 6, 7, 8, 9, 10, 0x81, 0] 11 0).bit_index = 0 ∧
      (cursor_at [9, 1, 2, 3, 4, 5, 6, 7, 8, 9, 10, 0x81, 0] 11 0).pos = 1 + 10 + 1 :=
  skip_lands_after_body [9, 1, 2, 3, 4, 5, 6, 7, 8, 9, 10, 0x81, 0] 1 10
    (cursor_at [9, 1, 2, 3, 4, 5, 6, 7, 8, 9, 10, 0x81, 0] 11 0) (by decide) (by decide)

/-- C20. With the cursor byte-aligned on the byte at index `p` and `k` from 1 to 4,
`FlacDecoder_next_bits(8 * k)` returns true exactly when the stream has a byte at index
`p + k`, one byte past the last byte the read consumes; and `FlacDecoder_skip(n)` returns true
exactly when a byte exists at index `p + n`. -/
theorem look_ahead_byte_needed (s : List Nat) (p k : Nat) (hp : p < s.length) (hk1 : 1 ≤ k)
    (hk4 : k ≤ 4) :
    ((FlacDecoder_next_bits (cursor_at s p 0) (8 * k)).2 ≠ none ↔ p + k < s.length) ∧
      ∀ n, (FlacDecoder_skip (cursor_at s p 0) n).2 = true ↔ p + n < s.length := by
  constructor
  · constructor
    · intro h
      by_contra hlen
      exact h (next_bits_aligned_eof s p k 0 (by omega) hp)
    · intro hlen
      have := next_bits_aligned_ok s p k 0 (by omega) (by omega) hlen
      rw [Nat.add_zero] at this
      rw [this]
      simp
  · intro n
    constructor
    · intro h
      by_contra hlen
      rw [skip_eof s p 0 n (by omega)] at h
      simp at h
    · intro hlen
      rw [skip_ok s p 0 n hlen]

/-- C20, witness: on a 4-byte stream a 32-bit read from byte 0 fails, although its 32 bits are
there, and so does a skip of 4 bytes. -/
theorem look_ahead_byte_needed_witness :
    ((FlacDecoder_next_bits (cursor_at [0x66, 0x4C, 0x61, 0x43] 0 0) (8 * 4)).2 ≠ none ↔
        0 + 4 < [0x66, 0x4C, 0x61, 0x43].length) ∧
      ∀ n, (FlacDecoder_skip (cursor_at [0x66, 0x4C, 0x61, 0x43] 0 0) n).2 = true ↔
        0 + n < [0x66, 0x4C, 0x61, 0x43].length :=
  look_ahead_byte_needed [0x66, 0x4C, 0x61, 0x43] 0 4 (by decide) (by decide) (by decide)

/-! ## A stream-parameters block followed by padding -/

theorem loop_step (u : Nat → StreamInfoLocals) (fuel : Nat) (st : DecodeState) (h : 0 < fuel) :
    lflac_decode_loop u fuel st =
      if st.last_metadata_block then some (.returned_true st)
      else
        match lflac_decode_iteration (u st.block_count) st with
        | .returned site decoder => some (.returned_false site decoder)
        | .next st => lflac_decode_loop u (fuel - 1) st := by
  obtain ⟨f, rfl⟩ : ∃ f, fuel = f + 1 := ⟨fuel - 1, by omega⟩
  rw [lflac_decode_loop]
  rfl

theorem getD_append_mid (a b c : List Nat) (j : Nat) (h : j < b.length) :
    (a ++ b ++ c)[a.length + j]?.getD 0 = b[j]?.getD 0 := by
  rw [List.append_assoc, List.getElem?_append_right (by omega), Nat.add_sub_cancel_left,
    List.getElem?_append_left h]

theorem spec_stream_bits_append_mid (a b c : List Nat) (i n : Nat) (h : i + n ≤ 8 * b.length) :
    spec_stream_bits (a ++ b ++ c) (8 * a.length + i) n = spec_stream_bits b i n := by
  rw [List.append_assoc, spec_stream_bits_append_right, spec_stream_bits_append_left _ _ _ _ h]

theorem read_md5_range (s body : List Nat) (q : Nat)
    (h : ∀ j, j < 16 → s[q + j]?.getD 0 = body[18 + j]?.getD 0) :
    (List.range 16).map (fun j => s[q + j]?.getD 0 % 256) =
      (List.range 16).map (fun j => body[18 + j]?.getD 0 % 256) := by
  apply List.map_congr_left
  intro j hj
  rw [h j (List.mem_range.mp hj)]

theorem iteration_skip_ok (u : StreamInfoLocals) (st : DecodeState) (s : List Nat) (p n : Nat)
    (hd : st.decoder = cursor_at s p 0) (hbc : st.block_count ≠ 0)
    (htype : s[p]?.getD 0 % 256 % 128 = 1 ∨ s[p]?.getD 0 % 256 % 128 = 4)
    (hn : spec_stream_bits s (8 * (p + 1)) 24 = n) (hlen : p + 4 + n < s.length) :
    lflac_decode_iteration u st =
      .next
        { decoder := cursor_at s (p + 4 + n) 0
          stream_info := st.stream_info
          last_metadata_block := decide (128 ≤ s[p]?.getD 0 % 256)
          block_count := st.block_count + 1 } := by
  unfold lflac_decode_iteration
  rw [hd, parse_metadata_block_header_ok s p (by omega)]
  dsimp only
  rw [if_neg (by simp [hbc]), if_neg (by omega), if_pos htype, hn, skip_ok s (p + 4) 0 n hlen]

theorem padded_file_facts (body padding trailing : List Nat) (hlen : body.length = 34)
    (hpad : padding.length = 10) :
    (padded_file body padding trailing).length = 56 + trailing.length ∧
      spec_stream_bits (padded_file body padding trailing) 0 32 = 0x664C6143 ∧
      (padded_file body padding trailing)[4]?.getD 0 = 0 ∧
      (∀ i n, i + n ≤ 272 →
        spec_stream_bits (padded_file body padding trailing) (8 * (4 + 4) + i) n
          = spec_stream_bits body i n) ∧
      (∀ j, j < 16 →
        (padded_file body padding trailing)[4 + 4 + 18 + j]?.getD 0 = body[18 + j]?.getD 0) ∧
      (padded_file body padding trailing)[42]?.getD 0 = 0x81 ∧
      spec_stream_bits (padded_file body padding trailing) (8 * (42 + 1)) 24 = 10 := by
  have e1 : padded_file body padding trailing =
      (signature ++ [0x00, 0, 0, 34]) ++ body ++ ([0x81, 0, 0, 10] ++ (padding ++ trailing)) := by
    simp [padded_file, single_block_file]
  have e2 : padded_file body padding trailing =
      single_block_file 0x00 body ++ [0x81, 0, 0, 10] ++ (padding ++ trailing) := by
    simp [padded_file]
  have e3 : padded_file body padding trailing =
      signature ++ ([0x00, 0, 0, 34] ++ body ++ [0x81, 0, 0, 10] ++ padding ++ trailing) := by
    simp [padded_file, single_block_file]
  have la : (signature ++ [0x00, 0, 0, 34]).length = 8 := rfl
  have lb : (single_block_file 0x00 body).length = 42 := by
    rw [single_block_file_length, hlen]
  refine ⟨?_, ?_, ?_, ?_, ?_, ?_, ?_⟩
  · rw [e2]
    simp only [List.length_append, lb, hpad, List.length_cons, List.length_nil]
    omega
  · rw [e3, spec_stream_bits_append_left _ _ 0 32 (by simp [signature])]
    decide
  · rw [e3]
    simp [signature]
  · intro i n h
    rw [e1]
    have := spec_stream_bits_append_mid (signature ++ [0x00, 0, 0, 34]) body
      ([0x81, 0, 0, 10] ++ (padding ++ trailing)) i n (by omega)
    rw [la] at this
    exact this
  · intro j hj
    rw [e1]
    have := getD_append_mid (signature ++ [0x00, 0, 0, 34]) body
      ([0x81, 0, 0, 10] ++ (padding ++ trailing)) (18 + j) (by omega)
    rw [la] at this
    have e : 4 + 4 + 18 + j = 8 + (18 + j) := by omega
    rw [e]
    exact this
  · rw [e2]
    have := getD_append_mid (single_block_file 0x00 body) [0x81, 0, 0, 10] (padding ++ trailing)
      0 (by decide)
    rw [lb] at this
    exact this
  · rw [e2]
    have := spec_stream_bits_append_mid (single_block_file 0x00 body) [0x81, 0, 0, 10]
      (padding ++ trailing) 8 24 (by decide)
    rw [lb] at this
    have e : 8 * (42 + 1) = 8 * 42 + 8 := rfl
    rw [e, this]
    decide

/-- C12, the claim as stated fails: with no byte after the 10 padding bytes, the skip of the
padding seeks to the end of the stream and fails to refill the current byte, and `lflac_decode`
returns false at the diagnostic "Couldn't parse block". -/
theorem padding_at_end_of_stream_fails :
    lflac_decode zero_memory (padded_file scenario_body [0, 0, 0, 0, 0, 0, 0, 0, 0, 0] []) =
      some (.returned_false .block_not_parsed
        { stream := padded_file scenario_body [0, 0, 0, 0, 0, 0, 0, 0, 0, 0] [], pos := 56,
          bit_index := 0, current_byte := 0 }) := by
  decide

/-- C12, amended. For every input made of the signature, a stream-parameters block (type 0, not
last, nonzero sample rate), a padding block header (type 1, last, length 10), its 10 padding
bytes and at least one trailing byte, `lflac_decode` returns true with the cursor byte-aligned
on the first trailing byte (exactly the 10 padding bytes were skipped), after two blocks, and
the `StreamInfo` it has stored is the record of the stream-parameters body. -/
theorem decode_streaminfo_then_padding (u : Indeterminate) (body padding trailing : List Nat)
    (hlen : body.length = 34) (hrate : spec_stream_bits body 80 20 ≠ 0)
    (hpad : padding.length = 10) (htrail : trailing ≠ []) :
    lflac_decode u (padded_file body padding trailing) =
      some (.returned_true
        { decoder := cursor_at (padded_file body padding trailing) (46 + 10) 0
          stream_info := some (stream_info_of_body body)
          last_metadata_block := true
          block_count := 2 }) := by
  obtain ⟨hl, hsig, h4, hb, hmd5, h42, hn⟩ := padded_file_facts body padding trailing hlen hpad
  have ht : 0 < trailing.length := List.length_pos.mpr htrail
  generalize padded_file body padding trailing = s at hl hsig h4 hb hmd5 h42 hn ⊢
  have hrate2 : spec_stream_bits s (8 * (4 + 4) + 80) 20 ≠ 0 := by
    rw [hb 80 20 (by omega)]; exact hrate
  have hit1 := iteration_streaminfo_ok (u.locals 0)
    { decoder := cursor_at s 4 0, stream_info := none, last_metadata_block := false,
      block_count := 0 } s 4 rfl (by omega) (by rw [h4]) hrate2
  rw [parse_STREAMINFO_ok (u.locals 0) s (4 + 4) (by omega) hrate2,
    read_md5_ok s (u.locals 0).v 16 0 (4 + 4 + 18) [] (by omega), h4] at hit1
  have hit2 := iteration_skip_ok (u.locals 1)
    { decoder := cursor_at s 42 0
      stream_info := some (stream_info_of_body body)
      last_metadata_block := false
      block_count := 1 } s 42 10 rfl (by simp) (Or.inl (by rw [h42])) hn (by omega)
  rw [h42] at hit2
  rw [lflac_decode, start_ok u s (by omega) hsig]
  dsimp only
  rw [loop_step _ _ _ (by omega)]
  simp only [Bool.false_eq_true, ↓reduceIte, hit1]
  have hst1 : ({ decoder := cursor_at s (4 + 4 + 18 + 16) 0
                 stream_info := some
                   { md5_checksum :=
                       [] ++ (List.range 16).map (fun j => s[4 + 4 + 18 + j]?.getD 0 % 256)
                     sample_count := ((spec_stream_bits s (8 * (4 + 4) + 108) 32 <<< 4) % 2 ^ 32)
                       ||| spec_stream_bits s (8 * (4 + 4) + 140) 4
                     sample_rate := spec_stream_bits s (8 * (4 + 4) + 80) 20
                     minimum_frame_size := spec_stream_bits s (8 * (4 + 4) + 32) 24
                     maximum_frame_size := spec_stream_bits s (8 * (4 + 4) + 56) 24
                     minimum_blocksize := spec_stream_bits s (8 * (4 + 4)) 16
                     maximum_blocksize := spec_stream_bits s (8 * (4 + 4) + 16) 16
                     channel_count := spec_stream_bits s (8 * (4 + 4) + 100) 3 + 1
                     bits_per_sample := spec_stream_bits s (8 * (4 + 4) + 103) 5 + 1 }
                 last_metadata_block := decide (128 ≤ 0 % 256)
                 block_count := 0 + 1 } : DecodeState)
      = { decoder := cursor_at s 42 0
          stream_info := some (stream_info_of_body body)
          last_metadata_block := false
          block_count := 1 } := by
    have hb0 := hb 0 16 (by omega)
    rw [Nat.add_zero] at hb0
    simp only [stream_info_of_body, List.nil_append, read_md5_range s body (4 + 4 + 18) hmd5,
      hb0, hb 16 16 (by omega), hb 32 24 (by omega), hb 56 24 (by omega), hb 80 20 (by omega),
      hb 100 3 (by omega), hb 103 5 (by omega), hb 108 32 (by omega), hb 140 4 (by omega)]
    rfl
  rw [show ({ decoder := cursor_at s (4 + 4 + 18 + 16) 0, stream_info := _,
              last_metadata_block := _, block_count := _ } : DecodeState) = _ from hst1]
  rw [loop_step _ _ _ (by omega)]
  simp only [Bool.false_eq_true, ↓reduceIte, hit2]
  rw [loop_step _ _ _ (by omega)]
  simp only [show decide (128 ≤ 129 % 256) = true from by decide, ↓reduceIte]

/-- C12, witness: the scenario body, ten zero padding bytes and one trailing byte. -/
theorem decode_streaminfo_then_padding_witness :
    lflac_decode zero_memory (padded_file scenario_body [0, 0, 0, 0, 0, 0, 0, 0, 0, 0] [0xFF]) =
      some (.returned_true
        { decoder :=
            cursor_at (padded_file scenario_body [0, 0, 0, 0, 0, 0, 0, 0, 0, 0] [0xFF]) (46 + 10) 0
          stream_info := some (stream_info_of_body scenario_body)
          last_metadata_block := true
          block_count := 2 }) :=
  decode_streaminfo_then_padding zero_memory scenario_body [0, 0, 0, 0, 0, 0, 0, 0, 0, 0] [0xFF]
    (by decide) (by decide) (by decide) (by decide)

/-! ## Reads that fail inside the stream-parameters block -/

theorem truncated_streaminfo_parse (v : StreamInfoLocals) :
    FlacDecoder_parse_STREAMINFO_metadata_block v (cursor_at truncated_file 8 0) =
      (cursor_at truncated_file 21 4,
        some
          { minimum_blocksize := 4096, maximum_blocksize := 4096, minimum_frame_size := 0,
            maximum_frame_size := 0, sample_rate := 44100, channel_count := 2,
            bits_per_sample := 16,
            sample_count := (((v.sample_count_hi % 2 ^ 32) <<< 4) % 2 ^ 32) |||
              (v.sample_count_lo % 2 ^ 32),
            md5_checksum :=
              (List.range 16).map (fun i => ((v.v i % 2 ^ 32) &&& 0xFF) % 256) }) := by
  rfl

theorem truncated_iteration (v : StreamInfoLocals) :
    lflac_decode_iteration v
        { decoder := cursor_at truncated_file 4 0, stream_info := none,
          last_metadata_block := false, block_count := 0 } =
      .next
        { decoder := cursor_at truncated_file 21 4
          stream_info := some
            { minimum_blocksize := 4096, maximum_blocksize := 4096, minimum_frame_size := 0,
              maximum_frame_size := 0, sample_rate := 44100, channel_count := 2,
              bits_per_sample := 16,
              sample_count := (((v.sample_count_hi % 2 ^ 32) <<< 4) % 2 ^ 32) |||
                (v.sample_count_lo % 2 ^ 32),
              md5_checksum :=
                (List.range 16).map (fun i => ((v.v i % 2 ^ 32) &&& 0xFF) % 256) }
          last_metadata_block := true
          block_count := 1 } := by
  rw [lflac_decode_iteration, iteration_header_ok _ truncated_file 4 rfl (by decide)]
  dsimp only
  rw [if_neg (by decide), if_pos (by decide), truncated_streaminfo_parse]
  rfl

/-- C13, evaluated at the failing input: in the scenario file cut after 14 body bytes, the read
of the 32 high bits of the sample count fails (and every read after it), yet the STREAMINFO
decoder ignores the status and `lflac_decode` returns true, whatever the uninitialised memory;
the sample count and the checksum it stores are what the uninitialised locals held. -/
theorem truncated_block_still_decodes (u : Indeterminate) :
    (FlacDecoder_next_bits (cursor_at truncated_file 21 4) 32).2 = none ∧
      lflac_decode u truncated_file =
        some (.returned_true
          { decoder := cursor_at truncated_file 21 4
            stream_info := some
              { minimum_blocksize := 4096, maximum_blocksize := 4096, minimum_frame_size := 0,
                maximum_frame_size := 0, sample_rate := 44100, channel_count := 2,
                bits_per_sample := 16,
                sample_count := ((((u.locals 0).sample_count_hi % 2 ^ 32) <<< 4) % 2 ^ 32) |||
                  ((u.locals 0).sample_count_lo % 2 ^ 32),
                md5_checksum :=
                  (List.range 16).map (fun i => (((u.locals 0).v i % 2 ^ 32) &&& 0xFF) % 256) }
            last_metadata_block := true
            block_count := 1 }) := by
  refine ⟨by decide, ?_⟩
  have hit := truncated_iteration (u.locals 0)
  have hl : truncated_file.length = 22 := rfl
  have hsig : spec_stream_bits truncated_file 0 32 = 0x664C6143 := by decide
  generalize truncated_file = s at hit hl hsig ⊢
  rw [lflac_decode, start_ok u s (by omega) hsig]
  dsimp only
  rw [loop_step _ _ _ (by omega)]
  simp only [Bool.false_eq_true, ↓reduceIte, hit]
  rw [loop_step _ _ _ (by omega)]
  simp only [↓reduceIte]

/-! ## A stream that ends right after the signature -/

/-- C14, the claim as stated fails: on the bare 4-byte signature the 32-bit read of
`FlacDecoder_validate_signature` fails on its fetch of a fifth byte, and `lflac_decode` returns
false at the diagnostic "Invalid signature", before any header read. -/
theorem bare_signature_fails_signature_check :
    lflac_decode zero_memory signature =
      some (.returned_false .invalid_signature (cursor_at signature 3 0)) := by
  decide

/-- C14, amended. For every input made of the signature `fLaC` and fewer than 4 further bytes,
`lflac_decode` returns false: at the failed header read when at least one byte follows the
signature, and at the signature check when nothing follows it. -/
theorem truncated_after_signature (u : Indeterminate) (extra : List Nat)
    (hlen : extra.length < 4) :
    (extra ≠ [] →
        ∃ d, lflac_decode u (signature ++ extra) = some (.returned_false .header_read_failed d)) ∧
      (extra = [] →
        ∃ d, lflac_decode u (signature ++ extra) = some (.returned_false .invalid_signature d)) := by
  constructor
  · intro hne
    have hpos : 0 < extra.length := List.length_pos.mpr hne
    have hl : (signature ++ extra).length = 4 + extra.length := by
      simp [signature]
      omega
    have hsig : spec_stream_bits (signature ++ extra) 0 32 = 0x664C6143 := by
      rw [spec_stream_bits_append_left _ _ 0 32 (by simp [signature])]
      decide
    generalize signature ++ extra = s at hl hsig ⊢
    have hf := parse_metadata_block_header_eof s 4 (by omega) (by omega)
    rw [lflac_decode, start_ok u s (by omega) hsig]
    dsimp only
    rw [loop_step _ _ _ (by omega)]
    simp only [Bool.false_eq_true, ↓reduceIte]
    rw [lflac_decode_iteration]
    dsimp only
    generalize FlacDecoder_parse_metadata_block_header (cursor_at s 4 0) = x at hf
    obtain ⟨d, o⟩ := x
    dsimp only at hf
    subst hf
    exact ⟨d, rfl⟩
  · intro he
    subst he
    have hf : (lflac_decode_start u (signature ++ [])).2 = false := rfl
    rw [lflac_decode]
    generalize lflac_decode_start u (signature ++ []) = x at hf
    obtain ⟨d, b⟩ := x
    dsimp only at hf
    subst hf
    exact ⟨d, rfl⟩

/-- C14, witness: the signature followed by the two bytes `80 00`. -/
theorem truncated_after_signature_witness :
    ∃ d, lflac_decode zero_memory (signature ++ [0x80, 0])
      = some (.returned_false .header_read_failed d) :=
  (truncated_after_signature zero_memory [0x80, 0] (by decide)).1 (by decide)

/-! ## Two reads in a row -/

theorem next_bits_success (s : List Nat) (p off n : Nat) (d : FlacDecoder) (v : Nat)
    (hp : p < s.length) (hoff : off ≤ 7) (hn : n ≤ 32)
    (h : FlacDecoder_next_bits (cursor_at s p off) n = (d, some v)) :
    v = spec_stream_bits s (8 * p + off) n ∧
      ∃ p2 off2, d = cursor_at s p2 off2 ∧ p2 < s.length ∧ off2 ≤ 7 ∧
        (off = 0 ∨ 8 - off ≤ n → 8 * p2 + off2 = 8 * p + off + n) := by
  by_cases hgood : off = 0 ∨ 8 - off ≤ n
  · by_cases hlen : (8 * p + off + n) / 8 < s.length
    · rw [next_bits_ok s p off n ((8 * p + off + n) / 8) ((8 * p + off + n) % 8) hoff hn hgood
        (by omega) (by omega) hlen] at h
      simp only [Prod.mk.injEq, Option.some.injEq] at h
      obtain ⟨hd, hv⟩ := h
      exact ⟨hv.symm, _, _, hd.symm, hlen, by omega, fun _ => by omega⟩
    · have hf := next_bits_eof s p off n hoff hgood hp (by omega)
      rw [h] at hf
      simp at hf
  · have h1 : 0 < off := by omega
    have hkm : n - min (8 - off) n = 8 * 0 + 0 := by omega
    by_cases hlen : p + 1 + 0 < s.length
    · rw [next_bits_unaligned_ok s p off n 0 0 h1 hoff hn (by omega) hkm hlen] at h
      simp only [Prod.mk.injEq, Option.some.injEq] at h
      obtain ⟨hd, hv⟩ := h
      exact ⟨hv.symm, _, _, hd.symm, hlen, by omega, fun hg => absurd hg hgood⟩
    · have hf := next_bits_unaligned_eof s p off n 0 0 h1 hkm (by omega) hp
      rw [h] at hf
      simp at hf

/-- C15, the claim as stated fails: on the stream `0F 00 00` with the cursor on bit 4 of byte
0, a read of 2 bits returns 3 and moves the cursor to bit 0 of byte 1, leaving out the two bits
`11` that remain in byte 0; the next read of 2 bits returns 0, so the two reads give
`3 * 4 + 0 = 12`, while the 4 stream bits from the cursor on, and a single read of 4 bits, are
15. -/
theorem short_unaligned_read_drops_bits :
    FlacDecoder_next_bits (cursor_at [0x0F, 0x00, 0x00] 0 4) 2
        = (cursor_at [0x0F, 0x00, 0x00] 1 0, some 3) ∧
      FlacDecoder_next_bits (cursor_at [0x0F, 0x00, 0x00] 1 0) 2
        = (cursor_at [0x0F, 0x00, 0x00] 1 2, some 0) ∧
      spec_stream_bits [0x0F, 0x00, 0x00] (8 * 0 + 4) (2 + 2) = 15 ∧
      FlacDecoder_next_bits (cursor_at [0x0F, 0x00, 0x00] 0 4) (2 + 2)
        = (cursor_at [0x0F, 0x00, 0x00] 1 0, some 15) := by
  decide

/-- C15, amended. For every stream, every cursor offset `off` from 0 to 7 and all widths `a`,
`b` with `a + b ≤ 32` such that the cursor is byte-aligned, or the first read takes at least
the `8 - off` bits left in the current byte, or `b = 0`: if `FlacDecoder_next_bits(a)` followed
by `FlacDecoder_next_bits(b)` both return true, with results `x` and `y`, then `y` is the value
of the `b` stream bits right after the `a` bits just read, and `x * 2^b + y` is the value of
the `a + b` stream bits from the original cursor position. -/
theorem two_reads_concatenate (s : List Nat) (p off a b : Nat) (d1 d2 : FlacDecoder)
    (x y : Nat) (hp : p < s.length) (hoff : off ≤ 7) (hab : a + b ≤ 32)
    (hdom : off = 0 ∨ 8 - off ≤ a ∨ b = 0)
    (h1 : FlacDecoder_next_bits (cursor_at s p off) a = (d1, some x))
    (h2 : FlacDecoder_next_bits d1 b = (d2, some y)) :
    y = spec_stream_bits s (8 * p + off + a) b ∧
      x * 2 ^ b + y = spec_stream_bits s (8 * p + off) (a + b) := by
  obtain ⟨hx, p2, off2, hd1, hp2, hoff2, hpos⟩ :=
    next_bits_success s p off a d1 x hp hoff (by omega) h1
  subst hd1
  obtain ⟨hy, -⟩ := next_bits_success s p2 off2 b d2 y hp2 hoff2 (by omega) h2
  have hyb : y = spec_stream_bits s (8 * p + off + a) b := by
    by_cases hb : b = 0
    · subst hb
      rw [hy]
      rfl
    · rw [hy, hpos (by omega)]
  exact ⟨hyb, by rw [spec_stream_bits_add, ← hx, ← hyb]⟩

/-- C15, witness: 4 bits, then 8 bits, from bit 4 of the first byte of `0F AB 00`. -/
theorem two_reads_concatenate_witness :
    0xAB = spec_stream_bits [0x0F, 0xAB, 0x00] (8 * 0 + 4 + 4) 8 ∧
      0xF * 2 ^ 8 + 0xAB = spec_stream_bits [0x0F, 0xAB, 0x00] (8 * 0 + 4) (4 + 8) :=
  two_reads_concatenate [0x0F, 0xAB, 0x00] 0 4 4 8 (cursor_at [0x0F, 0xAB, 0x00] 1 0)
    (cursor_at [0x0F, 0xAB, 0x00] 2 0) 0xF 0xAB (by decide) (by decide) (by decide)
    (by decide) (by decide) (by decide)

/-! ## The bit index -/

theorem fread_bit_index (d : FlacDecoder) :
    (fread_current_byte d).1.bit_index = d.bit_index := by
  rw [fread_current_byte_eq]
  split_ifs <;> rfl

theorem next_bits_whole_bytes_bit_index (m : Nat) (hm : m < 8) :
    ∀ (k : Nat) (d : FlacDecoder) (r : Nat), d.bit_index = 0 →
      (next_bits_whole_bytes d r (8 * k + m)).1.bit_index = 0 := by
  intro k
  induction k with
  | zero =>
    intro d r h
    simp only [Nat.mul_zero, Nat.zero_add, next_bits_whole_bytes_lt d r m hm]
    exact h
  | succ k ih =>
    intro d r h
    have e : 8 * (k + 1) + m = (8 * k + m) + 8 := by ring
    rw [e, next_bits_whole_bytes]
    have hb := fread_bit_index d
    generalize fread_current_byte d = x at hb
    obtain ⟨d1, n⟩ := x
    dsimp only at hb ⊢
    by_cases hn : n = 1
    · simp only [hn, ne_eq, not_true_eq_false, ↓reduceIte]
      exact ih _ _ rfl
    · simp only [ne_eq, hn, not_false_eq_true, ↓reduceIte]
      rw [hb, h]

theorem next_bits_tail_bit_index (d : FlacDecoder) (r n : Nat) (h : d.bit_index = 0)
    (hs : (next_bits_tail d r n).2 ≠ none) : (next_bits_tail d r n).1.bit_index ≤ 7 := by
  have e : n = 8 * (n / 8) + n % 8 := by omega
  have hb := next_bits_whole_bytes_bit_index (n % 8) (by omega) (n / 8) d r h
  obtain ⟨-, g1⟩ := next_bits_whole_bytes_reads (n % 8) (by omega) (n / 8) d r
  rw [← e] at hb g1
  unfold next_bits_tail at hs ⊢
  generalize next_bits_whole_bytes d r n = x at hb g1 hs
  obtain ⟨d1, o⟩ := x
  cases o with
  | none => exact absurd rfl hs
  | some q =>
    obtain ⟨-, r2, hq⟩ := g1 (by simp)
    simp only [Option.some.injEq] at hq
    subst hq
    dsimp only at hb ⊢
    split_ifs
    · dsimp only
      rw [hb]
      omega
    · rw [hb]
      omega

theorem next_bits_tail_shift_amounts_bounds (d : FlacDecoder) (n : Nat) (h : d.bit_index = 0) :
    ∀ a ∈ next_bits_tail_shift_amounts d n, 0 ≤ a ∧ a ≤ 8 := by
  have e : n = 8 * (n / 8) + n % 8 := by omega
  have hb := next_bits_whole_bytes_bit_index (n % 8) (by omega) (n / 8) d 0 h
  obtain ⟨-, g1⟩ := next_bits_whole_bytes_reads (n % 8) (by omega) (n / 8) d 0
  rw [← e] at hb g1
  unfold next_bits_tail_shift_amounts
  generalize next_bits_whole_bytes d 0 n = x at hb g1
  obtain ⟨d1, o⟩ := x
  cases o with
  | none => intro a ha; simp at ha
  | some q =>
    obtain ⟨-, r2, hq⟩ := g1 (by simp)
    simp only [Option.some.injEq] at hq
    subst hq
    dsimp only at hb ⊢
    intro a ha
    split_ifs at ha
    · rw [hb] at ha
      simp only [List.mem_cons, List.mem_singleton, List.not_mem_nil, or_false] at ha
      rcases ha with rfl | rfl <;> omega
    · simp at ha

/-- C16, the claim as stated fails in its closing remark: a read of 3 bits from a byte-aligned
cursor succeeds and evaluates the mask `(1 << left_in_byte) - 1` with `left_in_byte = 8`, a
shift by 8. -/
theorem aligned_read_shifts_by_eight :
    (FlacDecoder_next_bits (cursor_at [0xFF] 0 0) 3).2 = some 7 ∧
      (8 : Int) ∈ next_bits_shift_amounts (cursor_at [0xFF] 0 0) 3 := by
  decide

/-- C16, amended. `FlacDecoder_init` sets the bit index to 0, and from every decoder state with
a bit index of at most 7, for every count, a successful `FlacDecoder_next_bits` and a
successful `FlacDecoder_skip` leave the bit index at most 7; the shifts by `8 - bit_index` and
by `left_in_byte - bit_count` in `FlacDecoder_next_bits` use amounts from 0 to 8, never a
negative one and never more than 8. -/
theorem bit_index_stays_below_eight (d : FlacDecoder) (count : Nat) (hbi : d.bit_index ≤ 7) :
    (∀ d0 s, (FlacDecoder_init d0 s).1.bit_index = 0) ∧
      ((FlacDecoder_next_bits d count).2 ≠ none →
        (FlacDecoder_next_bits d count).1.bit_index ≤ 7) ∧
      (∀ n, (FlacDecoder_skip d n).2 = true → (FlacDecoder_skip d n).1.bit_index ≤ 7) ∧
      ∀ a ∈ next_bits_shift_amounts d count, 0 ≤ a ∧ a ≤ 8 := by
  refine ⟨?_, ?_, ?_, ?_⟩
  · intro d0 s
    unfold FlacDecoder_init
    exact fread_bit_index _
  · unfold FlacDecoder_next_bits
    split_ifs with hpos
    · have hb := fread_bit_index d
      generalize fread_current_byte d = x at hb
      obtain ⟨d1, n⟩ := x
      dsimp only at hb ⊢
      by_cases hn : n = 1
      · simp only [hn, ne_eq, not_true_eq_false, ↓reduceIte]
        exact next_bits_tail_bit_index _ _ _ rfl
      · simp only [ne_eq, hn, not_false_eq_true, ↓reduceIte]
        intro h
        exact absurd trivial h
    · exact next_bits_tail_bit_index d 0 count (by omega)
  · intro n _
    unfold FlacDecoder_skip fseek_cur
    split_ifs
    · exact hbi
    · dsimp only
      rw [if_neg (by simp)]
      dsimp only
      rw [fread_bit_index]
      exact hbi
  · unfold next_bits_shift_amounts
    split_ifs with hpos
    · intro a ha
      rw [List.mem_append] at ha
      rcases ha with ha | ha
      · simp only [List.mem_cons, List.mem_singleton, List.not_mem_nil, or_false] at ha
        rcases ha with rfl | rfl <;> omega
      · generalize fread_current_byte d = x at ha
        obtain ⟨d1, n⟩ := x
        dsimp only at ha
        split_ifs at ha
        · simp at ha
        · exact next_bits_tail_shift_amounts_bounds _ _ rfl a ha
    · exact next_bits_tail_shift_amounts_bounds d count (by omega)

/-- C16, witness: the 8-bit read of the channel and depth fields, from bit 4 of a byte. -/
theorem bit_index_stays_below_eight_witness :
    (FlacDecoder_next_bits (cursor_at [0x42, 0xF0, 0x00] 0 4) 8).2 ≠ none ∧
      (FlacDecoder_next_bits (cursor_at [0x42, 0xF0, 0x00] 0 4) 8).1.bit_index ≤ 7 :=
  ⟨by decide,
    (bit_index_stays_below_eight (cursor_at [0x42, 0xF0, 0x00] 0 4) 8 (by decide)).2.1
      (by decide)⟩

/-! ## How many stream-parameters blocks are decoded -/

theorem iteration_next_stream_info (v : StreamInfoLocals) (st st2 : DecodeState)
    (h : lflac_decode_iteration v st = .next st2) :
    (st.stream_info ≠ none → st2.stream_info ≠ none) ∧
      (st.block_count = 0 → st2.stream_info ≠ none ∧
        ∃ d hd, FlacDecoder_parse_metadata_block_header st.decoder = (d, some hd) ∧
          hd.block_type = 0) := by
  unfold lflac_decode_iteration at h
  generalize hp : FlacDecoder_parse_metadata_block_header st.decoder = x at h
  obtain ⟨d1, o⟩ := x
  cases o with
  | none => simp at h
  | some hd =>
    dsimp only at h
    split_ifs at h with c1 c2 c3
    · generalize FlacDecoder_parse_STREAMINFO_metadata_block v d1 = y at h
      obtain ⟨d2, o2⟩ := y
      cases o2 with
      | none => simp at h
      | some si =>
        simp only [IterationResult.next.injEq] at h
        subst h
        exact ⟨fun _ => by simp, fun _ => ⟨by simp, d1, hd, rfl, c2⟩⟩
    · generalize FlacDecoder_skip d1 hd.length = y at h
      obtain ⟨d2, b⟩ := y
      cases b with
      | false => simp at h
      | true =>
        simp only [IterationResult.next.injEq] at h
        subst h
        refine ⟨fun hs => hs, fun h0 => ?_⟩
        exact absurd ⟨h0, c2⟩ c1

theorem loop_keeps_stream_info (u : Nat → StreamInfoLocals) :
    ∀ (fuel : Nat) (st st2 : DecodeState),
      lflac_decode_loop u fuel st = some (.returned_true st2) →
      st.stream_info ≠ none → st2.stream_info ≠ none := by
  intro fuel
  induction fuel with
  | zero => intro st st2 h; simp [lflac_decode_loop] at h
  | succ fuel ih =>
    intro st st2 h hs
    rw [lflac_decode_loop] at h
    by_cases hl : st.last_metadata_block = true
    · simp only [hl, ↓reduceIte, Option.some.injEq, DecodeResult.returned_true.injEq] at h
      subst h
      exact hs
    · simp only [hl, Bool.false_eq_true, ↓reduceIte] at h
      cases hit : lflac_decode_iteration (u st.block_count) st with
      | returned site d => simp [hit] at h
      | next st1 =>
        simp only [hit] at h
        exact ih st1 st2 h ((iteration_next_stream_info _ _ _ hit).1 hs)

theorem iteration_next_cases (v : StreamInfoLocals) (st st2 : DecodeState)
    (h : lflac_decode_iteration v st = .next st2) :
    ∃ d hd, FlacDecoder_parse_metadata_block_header st.decoder = (d, some hd) ∧
      (hd.block_type = 0 →
        st2.stream_info = (FlacDecoder_parse_STREAMINFO_metadata_block v d).2 ∧
          st2.stream_info ≠ none) ∧
      (hd.block_type ≠ 0 → st2.stream_info = st.stream_info) := by
  unfold lflac_decode_iteration at h
  generalize hp : FlacDecoder_parse_metadata_block_header st.decoder = x at h
  obtain ⟨d1, o⟩ := x
  cases o with
  | none => simp at h
  | some hd =>
    refine ⟨d1, hd, rfl, ?_⟩
    dsimp only at h
    split_ifs at h with c1 c2 c3
    · generalize hq : FlacDecoder_parse_STREAMINFO_metadata_block v d1 = y at h
      obtain ⟨d2, o2⟩ := y
      cases o2 with
      | none => simp at h
      | some si =>
        simp only [IterationResult.next.injEq] at h
        subst h
        exact ⟨fun _ => ⟨rfl, by simp⟩, fun hne => absurd c2 hne⟩
    · generalize FlacDecoder_skip d1 hd.length = y at h
      obtain ⟨d2, b⟩ := y
      cases b with
      | false => simp at h
      | true =>
        simp only [IterationResult.next.injEq] at h
        subst h
        exact ⟨fun h0 => absurd h0 c2, fun _ => rfl⟩

theorem state_at_zero_last (u : Indeterminate) (s : List Nat) (st : DecodeState)
    (h : lflac_decode_state_at u s 0 = some st) :
    st.last_metadata_block = false ∧ st.block_count = 0 := by
  rw [lflac_decode_state_at] at h
  generalize lflac_decode_start u s = x at h
  obtain ⟨d, b⟩ := x
  cases b with
  | false => simp at h
  | true =>
    simp only [Option.some.injEq] at h
    subst h
    exact ⟨rfl, rfl⟩

theorem state_at_succ (u : Indeterminate) (s : List Nat) (n : Nat) (st2 : DecodeState)
    (h : lflac_decode_state_at u s (n + 1) = some st2) :
    ∃ st1, lflac_decode_state_at u s n = some st1 ∧ st1.last_metadata_block = false ∧
      lflac_decode_iteration (u.locals st1.block_count) st1 = .next st2 := by
  rw [lflac_decode_state_at] at h
  cases hprev : lflac_decode_state_at u s n with
  | none => simp [hprev] at h
  | some st1 =>
    simp only [hprev] at h
    by_cases hl : st1.last_metadata_block = true
    · simp [hl] at h
    · simp only [hl, Bool.false_eq_true, ↓reduceIte] at h
      cases hit : lflac_decode_iteration (u.locals st1.block_count) st1 with
      | returned site d => simp [hit] at h
      | next st =>
        simp only [hit, Option.some.injEq] at h
        subst h
        exact ⟨st1, rfl, by simpa using hl, hit⟩

theorem state_at_before (u : Indeterminate) (s : List Nat) :
    ∀ (k n : Nat) (st : DecodeState), lflac_decode_state_at u s (n + k) = some st →
      ∃ st1, lflac_decode_state_at u s n = some st1 := by
  intro k
  induction k with
  | zero => intro n st h; exact ⟨st, h⟩
  | succ k ih =>
    intro n st h
    obtain ⟨st1, h1, -, -⟩ := state_at_succ u s (n + k) st h
    exact ih n st1 h1

theorem block_type_at_eq (u : Indeterminate) (s : List Nat) (n : Nat) (st : DecodeState)
    (d : FlacDecoder) (hd : MetadataBlockHeader)
    (h : lflac_decode_state_at u s n = some st) (hl : st.last_metadata_block = false)
    (hp : FlacDecoder_parse_metadata_block_header st.decoder = (d, some hd)) :
    lflac_decode_block_type_at u s n = some hd.block_type := by
  unfold lflac_decode_block_type_at
  rw [h]
  dsimp only
  rw [hl, hp]
  rfl

theorem loop_true_state_at (u : Indeterminate) (s : List Nat) :
    ∀ (fuel n : Nat) (st0 st : DecodeState), lflac_decode_state_at u s n = some st0 →
      lflac_decode_loop u.locals fuel st0 = some (.returned_true st) →
      ∃ k, lflac_decode_state_at u s (n + k) = some st ∧ st.last_metadata_block = true := by
  intro fuel
  induction fuel with
  | zero => intro n st0 st _ h; simp [lflac_decode_loop] at h
  | succ fuel ih =>
    intro n st0 st h0 h
    rw [lflac_decode_loop] at h
    by_cases hl : st0.last_metadata_block = true
    · simp only [hl, ↓reduceIte, Option.some.injEq, DecodeResult.returned_true.injEq] at h
      subst h
      exact ⟨0, h0, hl⟩
    · simp only [hl, Bool.false_eq_true, ↓reduceIte] at h
      cases hit : lflac_decode_iteration (u.locals st0.block_count) st0 with
      | returned site d => simp [hit] at h
      | next st1 =>
        simp only [hit] at h
        have h1 : lflac_decode_state_at u s (n + 1) = some st1 := by
          rw [lflac_decode_state_at, h0]
          simp only [hl, Bool.false_eq_true, ↓reduceIte, hit]
        obtain ⟨k, hk, hkl⟩ := ih (n + 1) st1 st h1 h
        exact ⟨1 + k, by rw [← Nat.add_assoc]; exact hk, hkl⟩

theorem decode_true_state_at (u : Indeterminate) (s : List Nat) (st : DecodeState)
    (h : lflac_decode u s = some (.returned_true st)) :
    ∃ N, 0 < N ∧ lflac_decode_state_at u s N = some st := by
  rw [lflac_decode] at h
  have h0 : ∀ d, lflac_decode_start u s = (d, true) →
      lflac_decode_state_at u s 0 = some
        { decoder := d, stream_info := none, last_metadata_block := false, block_count := 0 } := by
    intro d hd
    rw [lflac_decode_state_at, hd]
  generalize lflac_decode_start u s = x at h h0
  obtain ⟨d, b⟩ := x
  cases b with
  | false => simp at h
  | true =>
    dsimp only at h
    obtain ⟨k, hk, hkl⟩ := loop_true_state_at u s _ 0 _ st (h0 d rfl) h
    rw [Nat.zero_add] at hk
    refine ⟨k, ?_, hk⟩
    rcases Nat.eq_zero_or_pos k with hz | hpos
    · subst hz
      have := (state_at_zero_last u s st hk).1
      rw [hkl] at this
      simp at this
    · exact hpos

theorem state_at_stream_info (u : Indeterminate) (s : List Nat) :
    ∀ (n : Nat) (st : DecodeState), lflac_decode_state_at u s (n + 1) = some st →
      st.stream_info ≠ none := by
  intro n
  induction n with
  | zero =>
    intro st h
    obtain ⟨st0, h0, -, hit⟩ := state_at_succ u s 0 st h
    exact ((iteration_next_stream_info _ _ _ hit).2 (state_at_zero_last u s st0 h0).2).1
  | succ n ih =>
    intro st h
    obtain ⟨st1, h1, -, hit⟩ := state_at_succ u s (n + 1) st h
    exact (iteration_next_stream_info _ _ _ hit).1 (ih st1 h1)

/-- C17, the claim as stated fails: on a file with two blocks of type 0, `lflac_decode` returns
true after decoding both, and the `StreamInfo` it ends with is the one of the second block
(sample rate 48000), which has overwritten the one stored after the first (sample rate
44100). -/
theorem second_streaminfo_block_overwrites :
    lflac_decode_block_type_at zero_memory two_streaminfo_file 0 = some 0 ∧
      lflac_decode_block_type_at zero_memory two_streaminfo_file 1 = some 0 ∧
      ((lflac_decode_state_at zero_memory two_streaminfo_file 1).bind
        DecodeState.stream_info).map StreamInfo.sample_rate = some 44100 ∧
      (decoded_stream_info (lflac_decode zero_memory two_streaminfo_file)).map
        StreamInfo.sample_rate = some 48000 := by
  decide

/-- C17, amended. Every successful `lflac_decode` decodes at least one stream-parameters block.
Whenever it returns true: the first block it has processed has type 0 and a `StreamInfo` has
been stored; the state it returns in is the one after its last iteration, of which there is at
least one; every processed block of type 0 stores the record the STREAMINFO decoder produces
for it, and every processed block of another type leaves the stored `StreamInfo` as it was; so
when no block after the first has type 0, the `StreamInfo` is produced exactly once, by the
first block, and never overwritten. A later block of type 0 is decoded like the first and
overwrites it. -/
theorem success_decodes_first_streaminfo (u : Indeterminate) (s : List Nat) (st : DecodeState)
    (h : lflac_decode u s = some (.returned_true st)) :
    lflac_decode_block_type_at u s 0 = some 0 ∧ st.stream_info ≠ none ∧
      (∃ N, 0 < N ∧ lflac_decode_state_at u s N = some st) ∧
      (∀ n st1 st2, lflac_decode_state_at u s n = some st1 →
        lflac_decode_state_at u s (n + 1) = some st2 →
        (lflac_decode_block_type_at u s n = some 0 →
          ∃ d hd, FlacDecoder_parse_metadata_block_header st1.decoder = (d, some hd) ∧
            st2.stream_info = (FlacDecoder_parse_STREAMINFO_metadata_block (u.locals n) d).2 ∧
            st2.stream_info ≠ none) ∧
        (lflac_decode_block_type_at u s n ≠ some 0 → st2.stream_info = st1.stream_info)) ∧
      ((∀ n, 0 < n → lflac_decode_block_type_at u s n ≠ some 0) →
        ∀ st1, lflac_decode_state_at u s 1 = some st1 → st.stream_info = st1.stream_info) := by
  obtain ⟨N, hN, hst⟩ := decode_true_state_at u s st h
  obtain ⟨M, rfl⟩ : ∃ M, N = M + 1 := ⟨N - 1, by omega⟩
  have hstep : ∀ n st1 st2, lflac_decode_state_at u s n = some st1 →
      lflac_decode_state_at u s (n + 1) = some st2 →
      (lflac_decode_block_type_at u s n = some 0 →
        ∃ d hd, FlacDecoder_parse_metadata_block_header st1.decoder = (d, some hd) ∧
          st2.stream_info = (FlacDecoder_parse_STREAMINFO_metadata_block (u.locals n) d).2 ∧
          st2.stream_info ≠ none) ∧
      (lflac_decode_block_type_at u s n ≠ some 0 → st2.stream_info = st1.stream_info) := by
    intro n st1 st2 h1 h2
    obtain ⟨st1b, h1b, hl, hit⟩ := state_at_succ u s n st2 h2
    rw [h1] at h1b
    simp only [Option.some.injEq] at h1b
    subst h1b
    obtain ⟨-, -, -, hbc, -⟩ := state_at_spec u s n st1 h1
    rw [hbc] at hit
    obtain ⟨d, hd, hp, c0, c1⟩ := iteration_next_cases _ _ _ hit
    rw [block_type_at_eq u s n st1 d hd h1 hl hp]
    constructor
    · intro ht
      simp only [Option.some.injEq] at ht
      exact ⟨d, hd, hp, c0 ht⟩
    · intro ht
      exact c1 (fun h0 => ht (by rw [h0]))
  refine ⟨?_, state_at_stream_info u s M st hst, ⟨M + 1, hN, hst⟩, hstep, ?_⟩
  · obtain ⟨st1, h1⟩ := state_at_before u s M 1 st (by rw [Nat.add_comm]; exact hst)
    obtain ⟨st0, h0, hl, hit⟩ := state_at_succ u s 0 st1 h1
    obtain ⟨-, d, hd, hp, ht⟩ :=
      (iteration_next_stream_info _ _ _ hit).2 (state_at_zero_last u s st0 h0).2
    rw [block_type_at_eq u s 0 st0 d hd h0 hl hp, ht]
  · intro honly st1 h1
    have hall : ∀ m, m ≤ M → ∀ stm, lflac_decode_state_at u s (m + 1) = some stm →
        stm.stream_info = st1.stream_info := by
      intro m
      induction m with
      | zero =>
        intro _ stm hm
        rw [h1] at hm
        simp only [Option.some.injEq] at hm
        rw [hm]
      | succ m ih =>
        intro hle stm hm
        obtain ⟨stp, hp, -, -⟩ := state_at_succ u s (m + 1) stm hm
        rw [(hstep (m + 1) stp stm hp hm).2 (honly (m + 1) (by omega))]
        exact ih (by omega) stp hp
    exact hall M (le_refl M) st hst

/-- C17, witness: the scenario file of the specification. -/
theorem success_decodes_first_streaminfo_witness :
    lflac_decode_block_type_at zero_memory (single_block_file 0x80 scenario_body) 0 = some 0 ∧
      (some scenario_stream_info : Option StreamInfo) ≠ none :=
  match success_decodes_first_streaminfo zero_memory (single_block_file 0x80 scenario_body)
    { decoder := cursor_at (single_block_file 0x80 scenario_body) 41 0
      stream_info := some scenario_stream_info
      last_metadata_block := true
      block_count := 1 }
    (by decide) with
  | ⟨h1, h2, _⟩ => ⟨h1, h2⟩

/-! ## The sample count -/

theorem sample_count_combine (hi lo : Nat) (hlo : lo < 16) :
    ((hi <<< 4) % 2 ^ 32) ||| lo = (hi * 16) % 2 ^ 32 + lo := by
  rw [Nat.shiftLeft_eq]
  have h16 : (2 : Nat) ^ 4 = 16 := by norm_num
  rw [h16]
  have hdiv : (hi * 16) % 2 ^ 32 = 2 ^ 4 * ((hi * 16) % 2 ^ 32 / 16) := by
    norm_num
    omega
  have hlo4 : lo < 2 ^ 4 := by norm_num; exact hlo
  rw [hdiv, ← Nat.mul_add_lt_is_or hlo4]

/-- C18. For every stream-parameters block whose 34 body bytes are in the stream and that the
decoder decodes successfully, with `hi` the 32 bits read first and `lo` the 4 bits read next,
the stored sample count is `((hi * 16) mod 2^32) + lo`, which is the 36-bit wire value modulo
`2^32`, hence below `2^32`: the top 4 bits of the wire field are dropped. -/
theorem sample_count_is_wire_value_mod (u : StreamInfoLocals) (s : List Nat) (p : Nat)
    (d : FlacDecoder) (si : StreamInfo) (hbody : p + 33 < s.length)
    (h : FlacDecoder_parse_STREAMINFO_metadata_block u (cursor_at s p 0) = (d, some si)) :
    si.sample_count =
        (spec_stream_bits s (8 * p + 108) 32 * 16) % 2 ^ 32 + spec_stream_bits s (8 * p + 140) 4 ∧
      si.sample_count = spec_stream_bits s (8 * p + 108) 36 % 2 ^ 32 ∧
      si.sample_count < 2 ^ 32 := by
  by_cases hrate : spec_stream_bits s (8 * p + 80) 20 = 0
  · rw [parse_STREAMINFO_zero_rate u s p (by omega) hrate] at h
    simp at h
  · rw [parse_STREAMINFO_ok u s p (by omega) hrate] at h
    simp only [Prod.mk.injEq, Option.some.injEq] at h
    obtain ⟨-, hsi⟩ := h
    subst hsi
    dsimp only
    have hlo := spec_stream_bits_lt s (8 * p + 140) 4
    have e36 : (36 : Nat) = 32 + 4 := rfl
    have e140 : 8 * p + 108 + 32 = 8 * p + 140 := by ring
    rw [sample_count_combine _ _ (by norm_num at hlo ⊢; exact hlo), e36, spec_stream_bits_add,
      e140]
    norm_num at hlo ⊢
    omega

/-- C18, witness: the body whose sample count field holds `2^32`, followed by one byte. -/
theorem sample_count_is_wire_value_mod_witness :
    scenario_stream_info.sample_count =
        (spec_stream_bits (large_count_body ++ [0]) (8 * 0 + 108) 32 * 16) % 2 ^ 32 +
          spec_stream_bits (large_count_body ++ [0]) (8 * 0 + 140) 4 ∧
      scenario_stream_info.sample_count =
        spec_stream_bits (large_count_body ++ [0]) (8 * 0 + 108) 36 % 2 ^ 32 ∧
      scenario_stream_info.sample_count < 2 ^ 32 :=
  sample_count_is_wire_value_mod zero_locals (large_count_body ++ [0]) 0
    (cursor_at (large_count_body ++ [0]) 34 0) scenario_stream_info (by decide) (by decide)

/-! ## Termination -/

theorem loop_total (u : Nat → StreamInfoLocals) :
    ∀ (fuel : Nat) (st : DecodeState),
      st.decoder.stream.length - st.decoder.pos < 4 * fuel →
      ∃ r, lflac_decode_loop u fuel st = some r := by
  intro fuel
  induction fuel with
  | zero => intro st h; omega
  | succ fuel ih =>
    intro st h
    rw [lflac_decode_loop]
    by_cases hl : st.last_metadata_block = true
    · simp only [hl, ↓reduceIte]
      exact ⟨_, rfl⟩
    · simp only [hl, Bool.false_eq_true, ↓reduceIte]
      cases hit : lflac_decode_iteration (u st.block_count) st with
      | returned site d => exact ⟨_, rfl⟩
      | next st1 =>
        obtain ⟨⟨r1, r2, r3⟩, -⟩ := iteration_next_reads _ _ _ hit
        have hr3 := r3 (Or.inr (by omega))
        dsimp only
        apply ih st1
        rw [r1]
        omega

theorem loop_more_fuel (u : Nat → StreamInfoLocals) :
    ∀ (fuel k : Nat) (st : DecodeState) (r : DecodeResult),
      lflac_decode_loop u fuel st = some r → lflac_decode_loop u (fuel + k) st = some r := by
  intro fuel
  induction fuel with
  | zero => intro k st r h; simp [lflac_decode_loop] at h
  | succ fuel ih =>
    intro k st r h
    have e : fuel + 1 + k = (fuel + k) + 1 := by omega
    rw [e, lflac_decode_loop]
    rw [lflac_decode_loop] at h
    by_cases hl : st.last_metadata_block = true
    · simp only [hl, ↓reduceIte] at h ⊢
      exact h
    · simp only [hl, Bool.false_eq_true, ↓reduceIte] at h ⊢
      cases hit : lflac_decode_iteration (u st.block_count) st with
      | returned site d =>
        simp only [hit] at h ⊢
        exact h
      | next st1 =>
        simp only [hit] at h ⊢
        exact ih k st1 r h

/-- C19. `lflac_decode` returns on every finite stream, whatever the uninitialised memory: the
call produces a result, which no larger bound on the number of loop iterations changes; every
iteration of the block loop that does not return moves the file position at least 4 bytes
forward and not past the end of the stream; and whenever the loop condition is evaluated for
the `n`-th time (counted from 0), `4 * n + 5` bytes fit in the stream, so at most
`(stream length) / 4` iterations are started. -/
theorem decode_terminates (u : Indeterminate) (s : List Nat) :
    (∃ r, lflac_decode u s = some r ∧
      ∀ d k, lflac_decode_start u s = (d, true) →
        lflac_decode_loop u.locals (s.length + 1 + k)
          { decoder := d, stream_info := none, last_metadata_block := false, block_count := 0 }
          = some r) ∧
      (∀ v st st2, lflac_decode_iteration v st = .next st2 →
        st2.decoder.stream = st.decoder.stream ∧ st.decoder.pos + 4 ≤ st2.decoder.pos ∧
          st2.decoder.pos ≤ st.decoder.stream.length) ∧
      ∀ n st, lflac_decode_state_at u s n = some st →
        4 * n + 5 ≤ s.length ∧ n + 1 ≤ s.length / 4 := by
  refine ⟨?_, ?_, ?_⟩
  · rw [lflac_decode]
    have hs := start_true u s
    generalize lflac_decode_start u s = x at hs
    obtain ⟨d, b⟩ := x
    cases b with
    | false =>
      refine ⟨_, rfl, ?_⟩
      intro d2 k h
      simp at h
    | true =>
      obtain ⟨h4, hd, -⟩ := hs d rfl
      subst hd
      obtain ⟨r, hr⟩ := loop_total u.locals (s.length + 1)
        { decoder := cursor_at s 4 0, stream_info := none, last_metadata_block := false,
          block_count := 0 } (by simp only [cursor_at]; omega)
      refine ⟨r, hr, ?_⟩
      intro d2 k h
      simp only [Prod.mk.injEq, and_true] at h
      subst h
      exact loop_more_fuel _ _ k _ _ hr
  · intro v st st2 h
    obtain ⟨⟨r1, r2, r3⟩, -⟩ := iteration_next_reads _ _ _ h
    exact ⟨r1, r2, r3 (Or.inr (by omega))⟩
  · intro n st h
    obtain ⟨-, i2, i3, -, -⟩ := state_at_spec u s n st h
    omega

/-- C19, witness: the decoder returns on the file with two blocks. -/
theorem decode_terminates_witness :
    ∃ r, lflac_decode zero_memory two_block_file = some r :=
  match (decode_terminates zero_memory two_block_file).1 with
  | ⟨r, h, _⟩ => ⟨r, h⟩

end LisibleFlac
